import Mathlib

/-!
Verification development for the voice-clone TTS backend.

The definitions below are shallow embeddings of the Python source:
  * `src/src/api/routes/tts.py` — sentence splitting, chunking, WAV decode,
    silence generation, and the background job `run_tts_job`;
  * `src/src/story_narrator/runpod_client.py` — the RunPod synthesis client
    with its queue/poll lifecycle;
  * `src/src/story_narrator/audio_synthesizer-stable-v.py` — chunk-by-chunk
    synthesis with the tiny-chunk skip rule, lenient WAV decode, and peak
    normalisation on save;
  * `src/src/api/routes/tts-correct-v.py` — the variant route whose assembly
    loop inserts a longer pause after every 4th chunk.

Strings model Python `str` (lengths are code-point counts, as in Python
`len`).  Audio samples are modelled as exact rationals `ℚ` in place of
float32; machine-float rounding is not load-bearing for any statement here
(silence buffer sizes `int(0.35*24000) = 8400` and `int(0.9*24000) = 21600`
are the values the float expressions evaluate to).  Fallible Python code
(raising `RuntimeError`/`ValueError`) is modelled with `Except String`,
carrying the raised message.
-/

/-! ### Text processing (`tts.py` lines 68–90) -/

/-- Python `str.strip` / `\s` whitespace set (ASCII part, as relevant here). -/
def pyIsSpace (c : Char) : Bool :=
  c = ' ' || c = '\t' || c = '\n' || c = '\r' || c = '\x0b' || c = '\x0c'

/-- Python `str.strip()`: drop leading and trailing whitespace. -/
def pyStrip (s : String) : String :=
  ⟨((s.data.dropWhile pyIsSpace).reverse.dropWhile pyIsSpace).reverse⟩

/-- Terminal punctuation used by the sentence splitter: `.`, `!`, `?`. -/
def isTerm (c : Char) : Bool :=
  c = '.' || c = '!' || c = '?'

/-- Core of `re.split(r"(?<=[.!?])\s+", text)`: scan the characters, and at a
whitespace character whose predecessor is terminal punctuation, end the
current piece and consume the maximal whitespace run (the regex match).
`acc` holds the current piece in reverse; the `Bool` is true while the scan
is inside a separator whitespace run. -/
def splitTermGo : Bool → List Char → List Char → List (List Char)
  | _, [], acc => [acc.reverse]
  | true, c :: rest, acc =>
    if pyIsSpace c then splitTermGo true rest acc
    else splitTermGo false rest [c]
  | false, c :: rest, acc =>
    if pyIsSpace c && (match acc with | p :: _ => isTerm p | [] => false) then
      acc.reverse :: splitTermGo true rest []
    else
      splitTermGo false rest (c :: acc)

/-- Split a character list after terminal punctuation, as the regex does. -/
def splitTerm (cs : List Char) : List (List Char) :=
  splitTermGo false cs []

/-- Model of `split_into_sentences` (`tts.py` 68–73): strip the text, split after
terminal punctuation, strip each piece, keep the non-empty ones. -/
def split_into_sentences (text : String) : List String :=
  ((splitTerm (pyStrip text).data).map (fun l => pyStrip ⟨l⟩)).filter
    (fun s => s != "")

/-- The accumulator loop of `create_chunks` (`tts.py` 80–88): `chunks` and
`current` are the loop state; after the loop a non-empty `current` is
appended. -/
def chunksAux (maxChars : Nat) : List String → List String → String → List String
  | [], chunks, current => if current = "" then chunks else chunks ++ [current]
  | s :: rest, chunks, current =>
    if current.length + s.length > maxChars then
      chunksAux maxChars rest (chunks ++ [current]) s
    else
      chunksAux maxChars rest chunks (if current = "" then s else current ++ " " ++ s)

/-- Model of `create_chunks` (`tts.py` 76–90). The source's default limit is 240. -/
def create_chunks (text : String) (maxChars : Nat) : List String :=
  chunksAux maxChars (split_into_sentences text) [] ""

/-- The way `create_chunks` builds a chunk out of a group of sentences:
start from the first sentence and append `" " ++ s` for each later one
(`f"{current} {s}" if current else s`). -/
def spaceJoin (g : List String) : String :=
  g.foldl (fun cur s => if cur = "" then s else cur ++ " " ++ s) ""

/-! ### Base64 decoding (`base64.b64decode`, used for the audio payload) -/

/-- Value of one base64 alphabet character. -/
def b64val (c : Char) : Option Nat :=
  if 'A' ≤ c ∧ c ≤ 'Z' then some (c.toNat - 65)
  else if 'a' ≤ c ∧ c ≤ 'z' then some (c.toNat - 97 + 26)
  else if '0' ≤ c ∧ c ≤ '9' then some (c.toNat - 48 + 52)
  else if c = '+' then some 62
  else if c = '/' then some 63
  else none

/-- Reassemble 6-bit groups into bytes (trailing groups from padding). -/
def b64groups : List Nat → List Nat
  | a :: b :: c :: d :: rest =>
    (a * 4 + b / 16) :: ((b % 16) * 16 + c / 4) :: ((c % 4) * 64 + d) :: b64groups rest
  | [a, b] => [a * 4 + b / 16]
  | [a, b, c] => [a * 4 + b / 16, (b % 16) * 16 + c / 4]
  | _ => []

/-- Base64-decode a string to a byte list (padding `=` ignored). -/
def b64decode (s : String) : List Nat :=
  b64groups (s.data.filterMap b64val)

/-! ### RunPod synthesis client (`runpod_client.py` 36–110)

A remote JSON response is modelled by its fields of interest: `id`,
`status`, and `output.audio_b64` / `output.sample_rate`.  A `none` output
models a missing (or falsy) `output` field.  Raised `RuntimeError`s carry
the formatted message; the embedded Python `repr` of the response dict is
abbreviated by `showResp`. -/

structure RPOutput where
  audio_b64 : Option String
  sample_rate : Option Nat
deriving DecidableEq

structure RPResponse where
  id : Option String
  status : Option String
  output : Option RPOutput
deriving DecidableEq

def showOptStr : Option String → String
  | none => "None"
  | some s => s

/-- Abbreviated rendering of the response dict inside error messages. -/
def showResp (r : RPResponse) : String :=
  "\x7bid: " ++ showOptStr r.id ++ ", status: " ++ showOptStr r.status ++ "\x7d"

/-- The `for _ in range(30)` status-poll loop: poll, stop on COMPLETED,
otherwise keep the latest response.  Returns the final response and the
number of polls issued.  `polls i` is the response to the `i`-th
`GET /status/{id}`. -/
def pollLoop (polls : Nat → RPResponse) : Nat → Nat → RPResponse → RPResponse × Nat
  | _, 0, res => (res, 0)
  | i, fuel + 1, _ =>
    let r := polls i
    if r.status = some "COMPLETED" then (r, 1)
    else
      let (rr, n) := pollLoop polls (i + 1) fuel r
      (rr, n + 1)

/-- Model of `RunPodTTSClient.synthesize_with_reference_audio`, built from the
initial `/runsync` response and the stream of poll responses.  Returns the
outcome (decoded audio bytes, or the raised error message) together with
the number of status polls issued. -/
def synthesize_with_reference_audio (initial : RPResponse)
    (polls : Nat → RPResponse) : Except String (List Nat) × Nat :=
  match initial.id with
  | none => (Except.error ("RunPod response missing job id: " ++ showResp initial), 0)
  | some jid =>
    if jid = "" then
      (Except.error ("RunPod response missing job id: " ++ showResp initial), 0)
    else
      let resn :=
        if initial.status = some "IN_QUEUE" ∨ initial.status = some "IN_PROGRESS" then
          pollLoop polls 0 30 initial
        else (initial, 0)
      if resn.1.status ≠ some "COMPLETED" then
        (Except.error ("RunPod job not completed: " ++ showResp resn.1), resn.2)
      else
        match resn.1.output with
        | none => (Except.error ("Invalid RunPod output: " ++ showResp resn.1), resn.2)
        | some out =>
          match out.audio_b64 with
          | none => (Except.error ("Invalid RunPod output: " ++ showResp resn.1), resn.2)
          | some b => (Except.ok (b64decode b), resn.2)

/-! ### WAV decoding (`tts.py` 109–115 and `audio_synthesizer-stable-v.py` 94–106)

`sf.read` itself is external; a decoded file is modelled as the pair of its
waveform (mono samples, or per-frame channel lists) and its sample rate. -/

def SAMPLE_RATE : Nat := 24000

inductive Wav where
  | mono (samples : List ℚ)
  | multi (frames : List (List ℚ))
deriving DecidableEq

/-- Python `data.mean(axis=1)` applied to one frame. -/
def channelMean (frame : List ℚ) : ℚ := frame.sum / frame.length

/-- Model of `decode_wav` (`tts.py`): raise on a sample-rate mismatch, then collapse
multi-channel audio to mono by channel averaging. -/
def decode_wav (w : Wav) (sr : Nat) : Except String (List ℚ) :=
  if sr ≠ SAMPLE_RATE then Except.error ("Sample rate mismatch: " ++ toString sr)
  else
    match w with
    | Wav.mono d => Except.ok d
    | Wav.multi frames => Except.ok (frames.map channelMean)

/-- Model of `AudioSynthesizer._decode_wav` (stable-v): a sample-rate mismatch only
logs a warning; the waveform is returned regardless of `sr`. -/
def synthesizer_decode_wav (w : Wav) (sr : Nat) : List ℚ :=
  match w, sr with
  | Wav.mono d, _ => d
  | Wav.multi frames, _ => frames.map channelMean

/-- Buffer `silence(0.35)` in `run_tts_job`: `np.zeros(int(0.35 * SAMPLE_RATE))`,
and the float expression evaluates to exactly 8400.0. -/
def silence35 : List ℚ := List.replicate 8400 0

/-- Buffer `generate_silence(0.9)` in `tts-correct-v.py`: 21600 zero samples. -/
def silence90 : List ℚ := List.replicate 21600 0

/-! ### Job tracker and the background job (`tts.py` 126–180)

The tracker entry `tasks[task_id]` is a record; each dict assignment in the
source is one `Ev` event.  `run_tts_job` is modelled as the list of events
it applies to its tracker entry plus its outcome: the concatenated waveform
written on success, or the raised exception's message.  `refLoad` is the
outcome of loading and base64-encoding the reference voice; `synthFn c` is
the outcome of `runpod.synthesize_with_reference_audio` on chunk `c`
followed by `sf.read`, i.e. the decoded-file view of the returned bytes. -/

inductive Ev where
  | setStatus (s : String)
  | setProgress (p : Nat)
  | setError (e : String)
  | setAudioUrl (u : String)
deriving DecidableEq

structure TaskState where
  status : String
  progress : Nat
  audio_url : Option String
  error : Option String
deriving DecidableEq

/-- The entry created by the `/generate` endpoint: `{status: "queued", progress: 0}`. -/
def initTask : TaskState :=
  { status := "queued", progress := 0, audio_url := none, error := none }

def applyEv (st : TaskState) : Ev → TaskState
  | Ev.setStatus s => { st with status := s }
  | Ev.setProgress p => { st with progress := p }
  | Ev.setError e => { st with error := some e }
  | Ev.setAudioUrl u => { st with audio_url := some u }

def applyEvs (st : TaskState) (evs : List Ev) : TaskState :=
  evs.foldl applyEv st

/-- The per-chunk loop of `run_tts_job`: synthesize, decode, append the
segment and a fixed 0.35 s silence, update progress to
`int(5 + 85 * i / total)`.  Returns the tracker events it performed and
either the accumulated segment list or the first raised error. -/
def jobLoop (synthFn : String → Except String (Wav × Nat)) (total : Nat) :
    List String → Nat → List (List ℚ) → List Ev × Except String (List (List ℚ))
  | [], _, segs => ([], Except.ok segs)
  | c :: rest, i, segs =>
    match synthFn c with
    | Except.error e => ([], Except.error e)
    | Except.ok (w, sr) =>
      match decode_wav w sr with
      | Except.error e => ([], Except.error e)
      | Except.ok seg =>
        let rec2 := jobLoop synthFn total rest (i + 1) (segs ++ [seg, silence35])
        (Ev.setProgress (5 + 85 * i / total) :: rec2.1, rec2.2)

structure JobRun where
  events : List Ev
  result : Except String (List ℚ)

/-- Model of `run_tts_job` (`tts.py` 126–180).  Here `np.concatenate` on the empty segment
list raises `ValueError("need at least one array to concatenate")`, which the
bare `except` turns into a failed job like any other exception. -/
def run_tts_job (taskId : String) (text : String) (refLoad : Except String Unit)
    (synthFn : String → Except String (Wav × Nat)) : JobRun :=
  let pre := [Ev.setStatus "processing", Ev.setProgress 5]
  match refLoad with
  | Except.error e => ⟨pre ++ [Ev.setStatus "failed", Ev.setError e], Except.error e⟩
  | Except.ok _ =>
    let chunks := create_chunks text 240
    let lr := jobLoop synthFn chunks.length chunks 1 []
    match lr.2 with
    | Except.error e =>
      ⟨pre ++ lr.1 ++ [Ev.setStatus "failed", Ev.setError e], Except.error e⟩
    | Except.ok segs =>
      if segs = [] then
        ⟨pre ++ lr.1 ++ [Ev.setStatus "failed",
            Ev.setError "need at least one array to concatenate"],
          Except.error "need at least one array to concatenate"⟩
      else
        ⟨pre ++ lr.1 ++ [Ev.setStatus "completed", Ev.setProgress 100,
            Ev.setAudioUrl ("/output/audio/" ++ taskId ++ ".wav")],
          Except.ok segs.flatten⟩

/-- The progress values a list of tracker events writes, in order. -/
def progressVals (evs : List Ev) : List Nat :=
  evs.filterMap (fun ev => match ev with | Ev.setProgress p => some p | _ => none)

/-! ### Assembly loop of the variant route (`tts-correct-v.py` 126–147) -/

/-- Segment sequence built by `generate_tts` in `tts-correct-v.py`: each
chunk's decoded audio, a 0.35 s sentence pause, and a 0.9 s paragraph pause
after every 4th chunk (`idx % 4 == 0`, `idx` 1-based).  `dec c` is the
decoded audio for chunk `c`. -/
def correctVLoop (dec : String → List ℚ) : List String → Nat → List (List ℚ)
  | [], _ => []
  | c :: rest, idx =>
    [dec c, silence35] ++ (if idx % 4 = 0 then [silence90] else [])
      ++ correctVLoop dec rest (idx + 1)

/-- Final waveform of the variant route on the all-chunks-succeed path. -/
def generate_tts_audio (text : String) (dec : String → List ℚ) : List ℚ :=
  (correctVLoop dec (create_chunks text 240) 1).flatten

/-! ### AudioSynthesizer (`audio_synthesizer-stable-v.py` 36–126) -/

/-- Ensure terminal punctuation: `clean += "."` unless it already ends in
`.`, `!` or `?`. -/
def addDot (s : String) : String :=
  match s.data.getLast? with
  | some c => if isTerm c then s else s ++ "."
  | none => s ++ "."

/-- The chunk loop of `synthesize_chunks`: strip, skip chunks shorter than
20 characters, punctuate, call the remote model (`synthDec` models the
remote call followed by `_decode_wav`).  Returns the texts actually sent
and either the decoded segments or the first raised error. -/
def synthLoop (synthDec : String → Except String (List ℚ)) :
    List String → List String × Except String (List (List ℚ))
  | [] => ([], Except.ok [])
  | t :: rest =>
    let clean := pyStrip t
    if clean.length < 20 then synthLoop synthDec rest
    else
      let c2 := addDot clean
      match synthDec c2 with
      | Except.error e => ([c2], Except.error e)
      | Except.ok seg =>
        let cr := synthLoop synthDec rest
        (c2 :: cr.1,
          match cr.2 with
          | Except.error e => Except.error e
          | Except.ok segs => Except.ok (seg :: segs))

/-- Model of `AudioSynthesizer.synthesize_chunks` (56–89): fail when the speaker
embedding is missing (falsy), run the chunk loop, raise
`"No audio chunks generated"` when no segment was accumulated, otherwise
concatenate.  Returns the texts sent to the remote model and the outcome. -/
def synthesize_chunks (voiceId : String) (embedding : Option String)
    (synthDec : String → Except String (List ℚ)) (text_chunks : List String) :
    List String × Except String (List ℚ) :=
  match embedding with
  | none => ([], Except.error ("No speaker embedding for voice_id=" ++ voiceId))
  | some emb =>
    if emb = "" then
      ([], Except.error ("No speaker embedding for voice_id=" ++ voiceId))
    else
      let cr := synthLoop synthDec text_chunks
      match cr.2 with
      | Except.error e => (cr.1, Except.error e)
      | Except.ok segs =>
        if segs = [] then (cr.1, Except.error "No audio chunks generated")
        else (cr.1, Except.ok segs.flatten)

/-! ### Substring test (used to state facts about error messages) -/

/-- Whether `needle` starts `hay` (character lists). -/
def startsWithChars : List Char → List Char → Bool
  | [], _ => true
  | _ :: _, [] => false
  | a :: as, b :: bs => a == b && startsWithChars as bs

/-- Whether `needle` occurs contiguously somewhere in `hay`. -/
def containsChars (needle : List Char) : List Char → Bool
  | [] => needle.isEmpty
  | c :: rest => startsWithChars needle (c :: rest) || containsChars needle rest

/-! ### save_audio peak normalisation (`audio_synthesizer-stable-v.py` 111–126) -/

/-- Model of `np.max(np.abs(audio_np))` (the waveform is non-empty in the pipeline). -/
def np_max_abs (a : List ℚ) : ℚ := (a.map (fun x => |x|)).foldl max 0

/-- The normalisation step of `save_audio`: if the peak is positive, scale
every sample by `0.95 / peak` (`audio_np / peak * 0.95`); 0.95 is 19/20. -/
def save_audio_normalize (a : List ℚ) : List ℚ :=
  if 0 < np_max_abs a then a.map (fun x => x / np_max_abs a * (19 / 20)) else a

/-! ### Chunker lemmas -/

lemma string_ne_empty_of_length_pos {s : String} (h : 0 < s.length) : s ≠ "" := by
  intro he
  rw [he] at h
  simp [String.length] at h

lemma string_length_append (a b : String) : (a ++ b).length = a.length + b.length :=
  String.length_append a b

/-- The sentences produced by `split_into_sentences` are all non-empty. -/
lemma split_into_sentences_ne_empty (text : String) :
    ∀ s ∈ split_into_sentences text, s ≠ "" := by
  intro s hs
  unfold split_into_sentences at hs
  rcases (List.mem_filter.1 hs) with ⟨-, hp⟩
  exact bne_iff_ne.mp hp

/-- The chunk accumulator only ever appends to the already-closed chunks. -/
lemma chunksAux_append (m : Nat) :
    ∀ (ss : List String) (chunks : List String) (cur : String),
      chunksAux m ss chunks cur = chunks ++ chunksAux m ss [] cur := by
  intro ss
  induction ss with
  | nil =>
    intro chunks cur
    by_cases h : cur = "" <;> simp [chunksAux, h]
  | cons s rest ih =>
    intro chunks cur
    by_cases hov : cur.length + s.length > m
    · simp only [chunksAux, if_pos hov]
      rw [ih (chunks ++ [cur]) s, ih ([] ++ [cur]) s, List.append_assoc]
      simp
    · simp only [chunksAux, if_neg hov]
      rw [ih chunks _, ih [] _]

/-- Every chunk the loop closes is either within the budget plus one joining
space, or is one of the candidate sentences. -/
lemma chunksAux_len_or_mem (m : Nat) (S : List String) :
    ∀ (ss : List String) (cur : String), (∀ s ∈ ss, s ∈ S) →
      (cur.length ≤ m + 1 ∨ cur ∈ S) →
      ∀ c ∈ chunksAux m ss [] cur, c.length ≤ m + 1 ∨ c ∈ S := by
  intro ss
  induction ss with
  | nil =>
    intro cur _ hcur c hc
    by_cases h : cur = ""
    · simp [chunksAux, h] at hc
    · simp only [chunksAux, if_neg h] at hc
      have : c = cur := by simpa using hc
      rw [this]; exact hcur
  | cons s rest ih =>
    intro cur hss hcur c hc
    by_cases hov : cur.length + s.length > m
    · simp only [chunksAux, if_pos hov] at hc
      rw [chunksAux_append, List.mem_append] at hc
      rcases hc with hcl | hcr
      · have : c = cur := by simpa using hcl
        rw [this]; exact hcur
      · exact ih s (fun t ht => hss t (List.mem_cons_of_mem _ ht))
          (Or.inr (hss s (List.mem_cons_self _ _))) c hcr
    · simp only [chunksAux, if_neg hov] at hc
      refine ih _ (fun t ht => hss t (List.mem_cons_of_mem _ ht)) ?_ c hc
      by_cases hemp : cur = ""
      · rw [if_pos hemp]
        exact Or.inr (hss s (List.mem_cons_self _ _))
      · rw [if_neg hemp]
        left
        rw [string_length_append, string_length_append]
        have hsp : (" " : String).length = 1 := rfl
        have : cur.length + s.length ≤ m := Nat.le_of_not_lt hov
        omega

lemma spaceJoin_nil : spaceJoin [] = "" := rfl

lemma spaceJoin_single (s : String) : spaceJoin [s] = s := rfl

lemma spaceJoin_concat (g : List String) (s : String) :
    spaceJoin (g ++ [s]) = if spaceJoin g = "" then s else spaceJoin g ++ " " ++ s := by
  unfold spaceJoin
  rw [List.foldl_append]
  rfl

/-- Structure invariant: the chunks the loop produces are exactly the
space-joins of a partition of the remaining sentences (prefixed by the
group `g` already merged into `cur`). -/
lemma chunksAux_struct (m : Nat) :
    ∀ (ss : List String) (cur : String) (g : List String),
      (∀ s ∈ ss, s ≠ "") → cur = spaceJoin g → (g = [] ↔ cur = "") →
      ∃ gs : List (List String), gs.flatten = g ++ ss ∧
        chunksAux m ss [] cur = gs.map spaceJoin := by
  intro ss
  induction ss with
  | nil =>
    intro cur g _ hj hiff
    by_cases h : cur = ""
    · refine ⟨[], by simp [hiff.2 h], by simp [chunksAux, h]⟩
    · refine ⟨[g], by simp, ?_⟩
      simp only [chunksAux, if_neg h]
      simp [hj]
  | cons s rest ih =>
    intro cur g hne hj hiff
    have hsingle : ([s] = [] ↔ s = "") := by
      constructor
      · intro h; exact absurd h (by simp)
      · intro h; exact absurd h (hne s (List.mem_cons_self _ _))
    by_cases hov : cur.length + s.length > m
    · simp only [chunksAux, if_pos hov]
      rw [chunksAux_append]
      obtain ⟨gs, hgs, hrec⟩ := ih s [s] (fun t ht => hne t (List.mem_cons_of_mem _ ht))
        (spaceJoin_single s).symm hsingle
      refine ⟨g :: gs, ?_, ?_⟩
      · simp [hgs]
      · simp [hrec, hj]
    · simp only [chunksAux, if_neg hov]
      by_cases hemp : cur = ""
      · rw [if_pos hemp]
        obtain ⟨gs, hgs, hrec⟩ := ih s [s] (fun t ht => hne t (List.mem_cons_of_mem _ ht))
          (spaceJoin_single s).symm hsingle
        refine ⟨gs, ?_, hrec⟩
        rw [hgs, hiff.2 hemp]
        simp
      · rw [if_neg hemp]
        have hsne : s ≠ "" := hne s (List.mem_cons_self _ _)
        have hjoin : cur ++ " " ++ s = spaceJoin (g ++ [s]) := by
          rw [spaceJoin_concat, ← hj, if_neg hemp]
        have hgne : ¬(g ++ [s] = []) := by simp
        obtain ⟨gs, hgs, hrec⟩ := ih (cur ++ " " ++ s) (g ++ [s])
          (fun t ht => hne t (List.mem_cons_of_mem _ ht)) hjoin
          (by
            constructor
            · intro h; exact absurd h hgne
            · intro h
              exfalso
              have hlen : (cur ++ " " ++ s).length = 0 := by rw [h]; rfl
              rw [string_length_append, string_length_append] at hlen
              have hsp : (" " : String).length = 1 := rfl
              omega)
        refine ⟨gs, ?_, hrec⟩
        rw [hgs]
        simp

/-- If `cur` and all remaining sentences are non-empty, every produced chunk
is non-empty. -/
lemma chunksAux_all_ne (m : Nat) :
    ∀ (ss : List String) (cur : String), (∀ s ∈ ss, s ≠ "") → cur ≠ "" →
      ∀ c ∈ chunksAux m ss [] cur, c ≠ "" := by
  intro ss
  induction ss with
  | nil =>
    intro cur _ hcur c hc
    simp [chunksAux, hcur] at hc
    rw [hc]; exact hcur
  | cons s rest ih =>
    intro cur hne hcur c hc
    by_cases hov : cur.length + s.length > m
    · simp only [chunksAux, if_pos hov] at hc
      rw [chunksAux_append] at hc
      rcases List.mem_append.1 hc with hcl | hcr
      · simp at hcl; rw [hcl]; exact hcur
      · exact ih s (fun t ht => hne t (List.mem_cons_of_mem _ ht))
          (hne s (List.mem_cons_self _ _)) c hcr
    · simp only [chunksAux, if_neg hov] at hc
      by_cases hemp : cur = ""
      · rw [if_pos hemp] at hc
        exact ih s (fun t ht => hne t (List.mem_cons_of_mem _ ht))
          (hne s (List.mem_cons_self _ _)) c hc
      · rw [if_neg hemp] at hc
        refine ih _ (fun t ht => hne t (List.mem_cons_of_mem _ ht)) ?_ c hc
        apply string_ne_empty_of_length_pos
        rw [string_length_append, string_length_append]
        have : 0 < cur.length := by
          by_contra h
          exact hemp (by
            cases cur with
            | mk l =>
              cases l with
              | nil => rfl
              | cons a t => simp [String.length] at h)
        omega

/-- An oversized `cur` is closed on its own as the next chunk. -/
lemma chunksAux_oversized_head (m : Nat) :
    ∀ (ss : List String) (cur : String), m < cur.length →
      ∃ t, chunksAux m ss [] cur = cur :: t := by
  intro ss
  induction ss with
  | nil =>
    intro cur hcur
    have : cur ≠ "" := string_ne_empty_of_length_pos (Nat.lt_of_le_of_lt (Nat.zero_le m) hcur)
    exact ⟨[], by simp [chunksAux, this]⟩
  | cons s rest ih =>
    intro cur hcur
    have hov : cur.length + s.length > m := by omega
    refine ⟨chunksAux m rest [] s, ?_⟩
    simp only [chunksAux, if_pos hov]
    rw [chunksAux_append]
    simp

lemma mem_of_head?_eq {α : Type} {l : List α} {a : α} (h : l.head? = some a) : a ∈ l := by
  cases l with
  | nil => simp at h
  | cons x xs =>
    simp at h
    rw [h]
    exact List.mem_cons_self _ _

/-! ### Claim C1 -/

/-- C1 counterexample: with limit 7, the sentences `"aa."` (3 chars) and
`"aab."` (4 chars) are joined because the length check `3 + 4 > 7` fails,
but the joining space makes the produced chunk 8 characters long — it
exceeds the limit while consisting of two sentences that each fit, not of a
single oversized sentence. -/
theorem create_chunks_budget_cex :
    create_chunks "aa. aab." 7 = ["aa. aab."] ∧
    split_into_sentences "aa. aab." = ["aa.", "aab."] ∧
    7 < String.length "aa. aab." ∧
    String.length "aa." ≤ 7 ∧ String.length "aab." ≤ 7 :=
  ⟨by decide, by decide, by decide, by decide, by decide⟩

/-- C1 (amended): `create_chunks` never splits a sentence across chunks —
the chunk list is the space-join image of a partition of the sentence list,
in order — and every chunk is within `L + 1` characters (the single joining
space per chunk is not counted by the source's length check, so a
multi-sentence chunk may exceed `L` by exactly one) unless the chunk is one
of the sentences itself (the oversized single-sentence exception). -/
theorem create_chunks_sentence_safe (text : String) (L : Nat) :
    (∃ gs : List (List String), gs.flatten = split_into_sentences text ∧
      create_chunks text L = gs.map spaceJoin) ∧
    ∀ c ∈ create_chunks text L, c.length ≤ L + 1 ∨ c ∈ split_into_sentences text := by
  constructor
  · obtain ⟨gs, h1, h2⟩ := chunksAux_struct L (split_into_sentences text) "" []
      (split_into_sentences_ne_empty text) rfl (by simp)
    exact ⟨gs, by simpa using h1, h2⟩
  · intro c hc
    have h0 : ("" : String).length = 0 := rfl
    exact chunksAux_len_or_mem L (split_into_sentences text) (split_into_sentences text) ""
      (fun s hs => hs) (Or.inl (by rw [h0]; exact Nat.zero_le _)) c hc

/-- Witness for C1: the limit-240 single chunk of the two-sentence test
text satisfies the amended bound. -/
theorem create_chunks_sentence_safe_witness :
    ("Hello world. This is a test." : String).length ≤ 240 + 1 ∨
    "Hello world. This is a test." ∈ split_into_sentences "Hello world. This is a test." :=
  (create_chunks_sentence_safe "Hello world. This is a test." 240).2
    "Hello world. This is a test." (by decide)

/-! ### Claim C2 -/

/-- C2 counterexample: when the very first sentence (8 chars) exceeds the
limit (5), the loop appends the still-empty `current`, so the chunk list
starts with an empty chunk — contradicting "every chunk is non-empty" and
"never emits an empty chunk before it". -/
theorem create_chunks_empty_cex :
    create_chunks "aaaaaaa. bb." 5 = ["", "aaaaaaa.", "bb."] ∧
    "" ∈ create_chunks "aaaaaaa. bb." 5 ∧
    5 < String.length "aaaaaaa." :=
  ⟨by decide, by decide, by decide⟩

/-- C2 (amended): all chunks after the first are non-empty; the first chunk
is empty exactly when the first sentence alone exceeds the limit, and in
that case the oversized first sentence still forms its own chunk right
after the spurious empty one (it is not truncated or dropped). -/
theorem create_chunks_nonempty_except_leading (text : String) (L : Nat) :
    (∀ c ∈ (create_chunks text L).drop 1, c ≠ "") ∧
    ((create_chunks text L).head? = some "" ↔
      ∃ s0 rest, split_into_sentences text = s0 :: rest ∧ L < s0.length) ∧
    (∀ s0 rest, split_into_sentences text = s0 :: rest → L < s0.length →
      (create_chunks text L)[1]? = some s0) := by
  have hne := split_into_sentences_ne_empty text
  have hck : create_chunks text L = chunksAux L (split_into_sentences text) [] "" := rfl
  cases hss : split_into_sentences text with
  | nil =>
    rw [hss] at hck
    simp [chunksAux] at hck
    refine ⟨?_, ?_, ?_⟩
    · intro c hc; rw [hck] at hc; simp at hc
    · rw [hck]
      simp only [List.head?]
      constructor
      · intro h; exact absurd h (by simp)
      · rintro ⟨s0, rest, habs, -⟩
        exact absurd habs (by simp)
    · intro s0 rest habs
      exact absurd habs (by simp)
  | cons s0 rest =>
    have hs0 : s0 ≠ "" := hne s0 (by rw [hss]; exact List.mem_cons_self _ _)
    have hrest : ∀ s ∈ rest, s ≠ "" := fun s hs =>
      hne s (by rw [hss]; exact List.mem_cons_of_mem _ hs)
    have h0 : ("" : String).length = 0 := rfl
    rw [hss] at hck
    by_cases hov : L < s0.length
    · have hcond : ("" : String).length + s0.length > L := by rw [h0]; omega
      simp only [chunksAux, if_pos hcond] at hck
      rw [chunksAux_append] at hck
      obtain ⟨t, ht⟩ := chunksAux_oversized_head L rest s0 hov
      rw [ht] at hck
      refine ⟨?_, ?_, ?_⟩
      · intro c hc
        rw [hck] at hc
        simp only [List.drop] at hc
        rw [← ht] at hc
        exact chunksAux_all_ne L rest s0 hrest hs0 c hc
      · constructor
        · intro _; exact ⟨s0, rest, rfl, hov⟩
        · intro _; rw [hck]; rfl
      · intro s1 rest1 heq _
        injection heq with h1 _
        rw [hck, ← h1]
        simp
    · have hcond : ¬(("" : String).length + s0.length > L) := by rw [h0]; omega
      simp only [chunksAux, if_neg hcond, if_pos rfl] at hck
      have hall : ∀ c ∈ chunksAux L rest [] s0, c ≠ "" :=
        chunksAux_all_ne L rest s0 hrest hs0
      refine ⟨?_, ?_, ?_⟩
      · intro c hc
        rw [hck] at hc
        exact hall c (List.mem_of_mem_drop hc)
      · constructor
        · intro h
          rw [hck] at h
          exact absurd (hall "" (mem_of_head?_eq h)) (by simp)
        · rintro ⟨s1, rest1, heq, hlen⟩
          injection heq with h1 _
          rw [← h1] at hlen
          exact absurd hlen hov
      · intro s1 rest1 heq hlen
        injection heq with h1 _
        rw [← h1] at hlen
        exact absurd hlen hov

/-- Witness for C2: on a text whose first sentence (8 chars) exceeds the
limit 5, the first chunk is empty and the second is the oversized sentence. -/
theorem create_chunks_nonempty_except_leading_witness :
    (create_chunks "aaaaaaa. bb." 5)[1]? = some "aaaaaaa." ∧
    (create_chunks "aaaaaaa. bb." 5).head? = some "" := by
  have h := create_chunks_nonempty_except_leading "aaaaaaa. bb." 5
  refine ⟨h.2.2 "aaaaaaa." ["bb."] (by decide) (by decide), ?_⟩
  exact h.2.1.mpr ⟨"aaaaaaa.", ["bb."], by decide, by decide⟩

/-! ### Claim C6 -/

/-- C6 counterexample: the stable-version synthesizer's `_decode_wav`
receives 16000 Hz audio (pipeline rate 24000) and returns the waveform
unmodified instead of raising — it only logs a warning. -/
theorem synthesizer_decode_wav_no_raise_cex :
    synthesizer_decode_wav (Wav.mono [1/2]) 16000 = [1/2] ∧
    (16000 : Nat) ≠ SAMPLE_RATE :=
  ⟨rfl, by decide⟩

/-- C6 (amended): the API route's `decode_wav` raises
`"Sample rate mismatch: {sr}"` exactly when the sample rate differs from
24000 and otherwise returns the mono mixdown; the stable synthesizer's
`_decode_wav`, by contrast, never raises on a mismatch and returns the
(unmodified, never resampled) mixdown at any rate. -/
theorem decode_wav_sample_rate_contract (w : Wav) (sr : Nat) :
    (sr ≠ SAMPLE_RATE →
      decode_wav w sr = Except.error ("Sample rate mismatch: " ++ toString sr)) ∧
    (sr = SAMPLE_RATE → decode_wav w sr = Except.ok (synthesizer_decode_wav w sr)) ∧
    (∀ d, w = Wav.mono d → synthesizer_decode_wav w sr = d) := by
  refine ⟨?_, ?_, ?_⟩
  · intro h
    unfold decode_wav
    rw [if_pos h]
  · intro h
    unfold decode_wav synthesizer_decode_wav
    rw [if_neg (by simp [h])]
    cases w <;> rfl
  · intro d h
    subst h
    rfl

/-- Witness for C6: 16000 Hz input makes the route's `decode_wav` raise,
while 24000 Hz input decodes. -/
theorem decode_wav_sample_rate_contract_witness :
    decode_wav (Wav.mono [1/2]) 16000 = Except.error "Sample rate mismatch: 16000" ∧
    decode_wav (Wav.mono [1/2]) 24000 = Except.ok [1/2] := by
  constructor
  · rw [(decode_wav_sample_rate_contract (Wav.mono [1/2]) 16000).1 (by decide)]
    rfl
  · rw [(decode_wav_sample_rate_contract (Wav.mono [1/2]) 24000).2.1 rfl,
      (decode_wav_sample_rate_contract (Wav.mono [1/2]) 24000).2.2 [1/2] rfl]

/-! ### Claim C10 -/

lemma le_foldl_max (l : List ℚ) : ∀ init : ℚ, init ≤ l.foldl max init := by
  induction l with
  | nil => intro init; simp
  | cons x xs ih =>
    intro init
    simp only [List.foldl_cons]
    exact le_trans (le_max_left init x) (ih (max init x))

lemma foldl_max_abs_scale (c : ℚ) (hc : 0 ≤ c) :
    ∀ (l : List ℚ) (init : ℚ),
      ((l.map (fun x => x * c)).map (fun x => |x|)).foldl max (init * c) =
        ((l.map (fun x => |x|)).foldl max init) * c := by
  intro l
  induction l with
  | nil => intro init; simp
  | cons x xs ih =>
    intro init
    simp only [List.map_cons, List.foldl_cons]
    rw [abs_mul, abs_of_nonneg hc, ← max_mul_of_nonneg _ _ hc]
    exact ih (max init |x|)

lemma foldl_max_mem (l : List ℚ) : ∀ init : ℚ,
    l.foldl max init = init ∨ l.foldl max init ∈ l := by
  induction l with
  | nil => intro init; left; rfl
  | cons x xs ih =>
    intro init
    simp only [List.foldl_cons]
    rcases ih (max init x) with h | h
    · rcases max_choice init x with hm | hm
      · left; rw [h, hm]
      · right; rw [h, hm]; exact List.mem_cons_self _ _
    · right; exact List.mem_cons_of_mem _ h

lemma map_eq_self_mem {f : ℚ → ℚ} : ∀ {l : List ℚ}, l.map f = l → ∀ x ∈ l, f x = x := by
  intro l
  induction l with
  | nil => intro _ x hx; simp at hx
  | cons y ys ih =>
    intro h x hx
    simp only [List.map_cons] at h
    injection h with h1 h2
    rcases List.mem_cons.1 hx with hxy | hxm
    · rw [hxy]; exact h1
    · exact ih h2 x hxm

/-- C10 counterexample: a waveform whose peak is already 0.95 is mapped to
itself — the scaling `x / peak * 0.95` is the identity there — so the
written audio can be sample-for-sample equal to the raw waveform even
though the peak is positive. -/
theorem save_audio_identity_cex :
    save_audio_normalize [19/20] = [19/20] ∧ 0 < np_max_abs [19/20] := by
  have hp : np_max_abs [19/20] = 19/20 := by
    show List.foldl max 0 (List.map (fun x => |x|) [(19/20 : ℚ)]) = 19/20
    rw [List.map_singleton, List.foldl_cons, List.foldl_nil,
      abs_of_nonneg (by norm_num : (0:ℚ) ≤ 19/20)]
    exact max_eq_right (by norm_num)
  constructor
  · unfold save_audio_normalize
    rw [hp, if_pos (by norm_num : (0:ℚ) < 19/20), List.map_singleton]
    norm_num
  · rw [hp]
    norm_num

/-- C10 (amended): with a positive peak, `save_audio` scales every sample
by `0.95 / peak`, making the written peak exactly 0.95 of full scale; the
result equals the raw waveform exactly when the peak was already 0.95 (so
"never equal" fails only in that case).  A zero-peak (e.g. all-zero)
waveform is written unchanged. -/
theorem save_audio_peak_normalize (a : List ℚ) :
    (np_max_abs a = 0 → save_audio_normalize a = a) ∧
    (0 < np_max_abs a →
      save_audio_normalize a = a.map (fun x => x * ((19/20) / np_max_abs a)) ∧
      np_max_abs (save_audio_normalize a) = 19/20 ∧
      (save_audio_normalize a = a ↔ np_max_abs a = 19/20)) := by
  constructor
  · intro h
    unfold save_audio_normalize
    rw [if_neg (by rw [h]; exact lt_irrefl 0)]
  · intro hpos
    have hne0 : np_max_abs a ≠ 0 := ne_of_gt hpos
    have hfun : (fun x : ℚ => x / np_max_abs a * (19/20)) =
        (fun x : ℚ => x * ((19/20) / np_max_abs a)) := by
      funext x
      rw [div_mul_eq_mul_div, mul_div_assoc]
    have hdef : save_audio_normalize a = a.map (fun x => x * ((19/20) / np_max_abs a)) := by
      unfold save_audio_normalize
      rw [if_pos hpos, hfun]
    refine ⟨hdef, ?_, ?_⟩
    · have hc : (0:ℚ) ≤ (19/20) / np_max_abs a :=
        div_nonneg (by norm_num) (le_of_lt hpos)
      have h2 := foldl_max_abs_scale ((19/20) / np_max_abs a) hc a 0
      rw [zero_mul] at h2
      rw [hdef]
      show ((a.map (fun x => x * ((19/20) / np_max_abs a))).map (fun x => |x|)).foldl max 0
        = 19/20
      rw [h2]
      show np_max_abs a * ((19/20) / np_max_abs a) = 19/20
      rw [mul_comm, div_mul_cancel₀ _ hne0]
    · constructor
      · intro heq
        rw [hdef] at heq
        have hmem : np_max_abs a ∈ a.map (fun x => |x|) := by
          rcases foldl_max_mem (a.map (fun x => |x|)) 0 with h | h
          · exact absurd (show np_max_abs a = 0 from h) hne0
          · exact h
        obtain ⟨x, hx, hxabs⟩ := List.mem_map.1 hmem
        have hfx : x * ((19/20) / np_max_abs a) = x := map_eq_self_mem heq x hx
        have hxne : x ≠ 0 := by
          intro h0
          rw [h0] at hxabs
          simp at hxabs
          exact hne0 hxabs.symm
        have hxc : x * ((19/20) / np_max_abs a) = x * 1 := by rw [mul_one]; exact hfx
        have hone : (19/20 : ℚ) / np_max_abs a = 1 := mul_left_cancel₀ hxne hxc
        rw [div_eq_one_iff_eq hne0] at hone
        exact hone.symm
      · intro hpk
        rw [hdef, hpk, div_self (by norm_num : (19/20:ℚ) ≠ 0)]
        simp

/-- Witness for C10: a half-scale sample is scaled up to peak 0.95. -/
theorem save_audio_peak_normalize_witness :
    save_audio_normalize [1/2] = [1/2].map (fun x => x * ((19/20) / np_max_abs [1/2])) ∧
    np_max_abs (save_audio_normalize [1/2]) = 19/20 := by
  have hp : (0:ℚ) < np_max_abs [1/2] := by
    show (0:ℚ) < List.foldl max 0 (List.map (fun x => |x|) [(1/2 : ℚ)])
    rw [List.map_singleton, List.foldl_cons, List.foldl_nil,
      abs_of_nonneg (by norm_num : (0:ℚ) ≤ 1/2), max_eq_right (by norm_num : (0:ℚ) ≤ 1/2)]
    norm_num
  have h := (save_audio_peak_normalize [1/2]).2 hp
  exact ⟨h.1, h.2.1⟩

/-! ### Claims C3 and C9 -/

lemma pollLoop_succ (polls : Nat → RPResponse) (i fuel : Nat) (res : RPResponse) :
    pollLoop polls i (fuel + 1) res =
      if (polls i).status = some "COMPLETED" then (polls i, 1)
      else ((pollLoop polls (i + 1) fuel (polls i)).1,
        (pollLoop polls (i + 1) fuel (polls i)).2 + 1) := rfl

/-- If no poll in the window reports COMPLETED, the loop runs its full fuel
and ends holding the last polled response. -/
lemma pollLoop_exhausted (polls : Nat → RPResponse) :
    ∀ (f i : Nat) (res : RPResponse),
      (∀ k, i ≤ k → k ≤ i + f → (polls k).status ≠ some "COMPLETED") →
      pollLoop polls i (f + 1) res = (polls (i + f), f + 1) := by
  intro f
  induction f with
  | zero =>
    intro i res hnc
    rw [pollLoop_succ, if_neg (hnc i (le_refl i) (by omega))]
    simp [pollLoop]
  | succ f ih =>
    intro i res hnc
    rw [pollLoop_succ, if_neg (hnc i (le_refl i) (by omega))]
    rw [ih (i + 1) (polls i) (fun k hk1 hk2 => hnc k (by omega) (by omega))]
    have he : i + 1 + f = i + (f + 1) := by omega
    rw [he]

/-- C3 counterexample: with the job stuck `IN_QUEUE` through all 30 polls,
the client raises the generic `"RunPod job not completed: …"` message — it
contains no timeout wording — and the very same raise site and message
format is used when the remote service reports the job `FAILED`, so the
timeout error is not a distinct, timeout-indicating error. -/
theorem runpod_timeout_message_cex :
    synthesize_with_reference_audio ⟨some "j", some "IN_QUEUE", none⟩
        (fun _ => ⟨some "j", some "IN_QUEUE", none⟩) =
      (Except.error "RunPod job not completed: \x7bid: j, status: IN_QUEUE\x7d", 30) ∧
    containsChars "imeout".toList
        "RunPod job not completed: \x7bid: j, status: IN_QUEUE\x7d".toList = false ∧
    synthesize_with_reference_audio ⟨some "j", some "IN_QUEUE", none⟩
        (fun _ => ⟨some "j", some "FAILED", none⟩) =
      (Except.error "RunPod job not completed: \x7bid: j, status: FAILED\x7d", 30) :=
  ⟨rfl, by decide, rfl⟩

/-- C3 (amended): when the initial response is queued/in-progress and the
30-poll budget is exhausted without a COMPLETED status, the client does
raise (it never retries silently) — but the error is the generic
`RuntimeError("RunPod job not completed: …")` built from the last polled
response, the same error used for a remotely-reported failure; its message
does not specifically indicate a timeout. -/
theorem runpod_timeout_generic_error (initial : RPResponse) (polls : Nat → RPResponse)
    (jid : String) (hid : initial.id = some jid) (hjid : jid ≠ "")
    (hq : initial.status = some "IN_QUEUE" ∨ initial.status = some "IN_PROGRESS")
    (hnc : ∀ k, k ≤ 29 → (polls k).status ≠ some "COMPLETED") :
    synthesize_with_reference_audio initial polls =
      (Except.error ("RunPod job not completed: " ++ showResp (polls 29)), 30) := by
  unfold synthesize_with_reference_audio
  simp only [hid]
  rw [if_neg hjid, if_pos hq]
  rw [pollLoop_exhausted polls 29 0 initial (fun k _ hk2 => hnc k (by omega))]
  rw [if_pos (by simpa using hnc 29 (by omega))]

/-- Witness for C3: a job stuck in queue for the whole budget yields the
generic not-completed error after exactly 30 polls. -/
theorem runpod_timeout_generic_error_witness :
    synthesize_with_reference_audio ⟨some "q", some "IN_PROGRESS", none⟩
        (fun _ => ⟨some "q", some "IN_PROGRESS", none⟩) =
      (Except.error ("RunPod job not completed: " ++
        showResp ⟨some "q", some "IN_PROGRESS", none⟩), 30) :=
  runpod_timeout_generic_error ⟨some "q", some "IN_PROGRESS", none⟩
    (fun _ => ⟨some "q", some "IN_PROGRESS", none⟩) "q" rfl (by decide)
    (Or.inr rfl)
    (fun _ _ =>
      (by decide :
        (⟨some "q", some "IN_PROGRESS", none⟩ : RPResponse).status ≠ some "COMPLETED"))

/-- C9 counterexample: a synchronously-completed response with no `id`
field makes the client raise `"RunPod response missing job id: …"` — the
`id` check runs before the status is even considered, so the decoded bytes
are not returned. -/
theorem runpod_sync_missing_id_cex :
    synthesize_with_reference_audio
        ⟨none, some "COMPLETED", some ⟨some "QUJD", some 24000⟩⟩
        (fun _ => ⟨none, some "COMPLETED", none⟩) =
      (Except.error "RunPod response missing job id: \x7bid: None, status: COMPLETED\x7d",
        0) := rfl

/-- C9 (amended): when the synchronous response carries a (non-empty) job
id together with `status: "COMPLETED"` and an output containing
`audio_b64`, the client returns the base64-decoded bytes and issues zero
status polls; without the id field it raises "missing job id" instead,
regardless of the completed status. -/
theorem runpod_sync_completed_no_polls (initial : RPResponse) (polls : Nat → RPResponse)
    (jid b : String) (out : RPOutput)
    (hid : initial.id = some jid) (hjid : jid ≠ "")
    (hst : initial.status = some "COMPLETED")
    (hout : initial.output = some out) (hb : out.audio_b64 = some b) :
    synthesize_with_reference_audio initial polls = (Except.ok (b64decode b), 0) := by
  have hnq : ¬(initial.status = some "IN_QUEUE" ∨ initial.status = some "IN_PROGRESS") := by
    rw [hst]; decide
  have hcomp : ¬(initial.status ≠ some "COMPLETED") := by rw [hst]; decide
  unfold synthesize_with_reference_audio
  simp only [hid]
  rw [if_neg hjid, if_neg hnq]
  rw [if_neg hcomp]
  simp only [hout, hb]

/-- Witness for C9 (amended): a completed response with id `"j"` and
payload `"QUJD"` returns the bytes of `"ABC"` with zero polls. -/
theorem runpod_sync_completed_no_polls_witness :
    synthesize_with_reference_audio
        ⟨some "j", some "COMPLETED", some ⟨some "QUJD", some 24000⟩⟩
        (fun _ => ⟨some "j", some "IN_QUEUE", none⟩) =
      (Except.ok [65, 66, 67], 0) :=
  (runpod_sync_completed_no_polls
    ⟨some "j", some "COMPLETED", some ⟨some "QUJD", some 24000⟩⟩
    (fun _ => ⟨some "j", some "IN_QUEUE", none⟩) "j" "QUJD"
    ⟨some "QUJD", some 24000⟩ rfl (by decide) rfl rfl rfl).trans (by rfl)

/-! ### Claim C7 -/

lemma addDot_length (s : String) : s.length ≤ (addDot s).length := by
  unfold addDot
  cases h : s.data.getLast? with
  | none =>
    rw [string_length_append]
    omega
  | some c =>
    show s.length ≤ (if isTerm c then s else s ++ ".").length
    by_cases ht : isTerm c
    · rw [if_pos ht]
    · rw [if_neg ht, string_length_append]
      omega

/-- Behaviour of the `synthesize_chunks` loop: every text sent to the
remote model is at least 20 characters, the sent texts are an in-order
prefix of the stripped-and-punctuated long chunks, a chunk list with no
long chunk performs no call and accumulates nothing, and when the remote
model always succeeds all long chunks are sent and one segment per call is
accumulated. -/
lemma synthLoop_spec (f : String → Except String (List ℚ)) :
    ∀ chunks : List String,
      (∀ t ∈ (synthLoop f chunks).1, 20 ≤ t.length) ∧
      (∃ rest, ((chunks.map pyStrip).filter (fun c => decide (20 ≤ c.length))).map addDot
        = (synthLoop f chunks).1 ++ rest) ∧
      (((chunks.map pyStrip).filter (fun c => decide (20 ≤ c.length))).map addDot = [] →
        synthLoop f chunks = ([], Except.ok [])) ∧
      ((∀ t, ∃ s, f t = Except.ok s) →
        (synthLoop f chunks).1
          = ((chunks.map pyStrip).filter (fun c => decide (20 ≤ c.length))).map addDot ∧
        ∃ segs, (synthLoop f chunks).2 = Except.ok segs ∧
          segs.length = (synthLoop f chunks).1.length) := by
  intro chunks
  induction chunks with
  | nil =>
    refine ⟨?_, ⟨[], by simp [synthLoop]⟩, ?_, ?_⟩
    · intro t ht; simp [synthLoop] at ht
    · intro _; rfl
    · intro _; exact ⟨by simp [synthLoop], [], rfl, rfl⟩
  | cons t rest ih =>
    obtain ⟨ih1, ⟨tailr, ih2⟩, ih3, ih4⟩ := ih
    by_cases hlt : (pyStrip t).length < 20
    · have hfilter :
          ((pyStrip t :: rest.map pyStrip).filter (fun c => decide (20 ≤ c.length)))
            = (rest.map pyStrip).filter (fun c => decide (20 ≤ c.length)) := by
        rw [List.filter_cons_of_neg]
        simp
        omega
      have hloop : synthLoop f (t :: rest) = synthLoop f rest := by
        simp only [synthLoop]
        rw [if_pos hlt]
      refine ⟨?_, ?_, ?_, ?_⟩
      · rw [hloop]; exact ih1
      · rw [hloop]
        refine ⟨tailr, ?_⟩
        simpa [hfilter] using ih2
      · intro hl
        rw [hloop]
        apply ih3
        simp only [List.map_cons] at hl
        rw [hfilter] at hl
        exact hl
      · intro hall
        rw [hloop]
        have h4 := ih4 hall
        simp only [List.map_cons]
        rw [hfilter]
        exact h4
    · have h20 : 20 ≤ (pyStrip t).length := Nat.le_of_not_lt hlt
      have hfilter :
          ((pyStrip t :: rest.map pyStrip).filter (fun c => decide (20 ≤ c.length)))
            = pyStrip t :: (rest.map pyStrip).filter (fun c => decide (20 ≤ c.length)) := by
        rw [List.filter_cons_of_pos]
        simpa using h20
      cases hfc : f (addDot (pyStrip t)) with
      | error e =>
        have hloop : synthLoop f (t :: rest) = ([addDot (pyStrip t)], Except.error e) := by
          simp only [synthLoop]
          rw [if_neg hlt, hfc]
        refine ⟨?_, ?_, ?_, ?_⟩
        · intro u hu
          rw [hloop] at hu
          have : u = addDot (pyStrip t) := by simpa using hu
          rw [this]
          exact le_trans h20 (addDot_length _)
        · rw [hloop]
          simp only [List.map_cons]
          rw [hfilter]
          exact ⟨((rest.map pyStrip).filter (fun c => decide (20 ≤ c.length))).map addDot,
            by simp⟩
        · intro hl
          simp only [List.map_cons] at hl
          rw [hfilter] at hl
          simp at hl
        · intro hall
          obtain ⟨s, hs⟩ := hall (addDot (pyStrip t))
          rw [hs] at hfc
          exact absurd hfc (by simp)
      | ok seg =>
        have hloop : synthLoop f (t :: rest) =
            (addDot (pyStrip t) :: (synthLoop f rest).1,
              match (synthLoop f rest).2 with
              | Except.error e => Except.error e
              | Except.ok segs => Except.ok (seg :: segs)) := by
          simp only [synthLoop]
          rw [if_neg hlt, hfc]
        refine ⟨?_, ?_, ?_, ?_⟩
        · intro u hu
          rw [hloop] at hu
          rcases List.mem_cons.1 hu with hu1 | hu2
          · rw [hu1]
            exact le_trans h20 (addDot_length _)
          · exact ih1 u hu2
        · rw [hloop]
          simp only [List.map_cons]
          rw [hfilter]
          exact ⟨tailr, by simp [ih2]⟩
        · intro hl
          simp only [List.map_cons] at hl
          rw [hfilter] at hl
          simp at hl
        · intro hall
          obtain ⟨h41, segs, h42, h43⟩ := ih4 hall
          rw [hloop]
          simp only [List.map_cons]
          rw [hfilter]
          refine ⟨by simp [h41], seg :: segs, ?_, ?_⟩
          · rw [h42]
          · simp [h43]

/-- Skip behaviour of `synthesize_chunks` (wrapping `synthLoop_spec`):
every text sent to the remote model is at least 20 characters, the sent
texts are an in-order prefix of the stripped-and-punctuated long chunks,
the all-skipped case raises `"No audio chunks generated"`, and skipped
chunks never fail a run that has a long chunk and a succeeding model. -/
lemma synthesize_chunks_skip_spec (voiceId : String) (emb : String) (hemb : emb ≠ "")
    (f : String → Except String (List ℚ)) (chunks : List String) :
    (∀ u ∈ (synthesize_chunks voiceId (some emb) f chunks).1, 20 ≤ u.length) ∧
    (∃ rest, ((chunks.map pyStrip).filter (fun c => decide (20 ≤ c.length))).map addDot
      = (synthesize_chunks voiceId (some emb) f chunks).1 ++ rest) ∧
    (((chunks.map pyStrip).filter (fun c => decide (20 ≤ c.length))).map addDot = [] →
      (synthesize_chunks voiceId (some emb) f chunks).1 = [] ∧
      (synthesize_chunks voiceId (some emb) f chunks).2
        = Except.error "No audio chunks generated") ∧
    ((∀ t, ∃ s, f t = Except.ok s) →
      ((chunks.map pyStrip).filter (fun c => decide (20 ≤ c.length))).map addDot ≠ [] →
      ∃ a, (synthesize_chunks voiceId (some emb) f chunks).2 = Except.ok a) := by
  obtain ⟨h1, ⟨tailr, h2⟩, h3, h4⟩ := synthLoop_spec f chunks
  have hsyn : synthesize_chunks voiceId (some emb) f chunks =
      (match (synthLoop f chunks).2 with
       | Except.error e => ((synthLoop f chunks).1, Except.error e)
       | Except.ok segs =>
         if segs = [] then ((synthLoop f chunks).1, Except.error "No audio chunks generated")
         else ((synthLoop f chunks).1, Except.ok segs.flatten)) := by
    simp only [synthesize_chunks]
    rw [if_neg hemb]
  refine ⟨?_, ?_, ?_, ?_⟩
  · intro u hu
    rw [hsyn] at hu
    apply h1 u
    rcases hr : (synthLoop f chunks).2 with e | segs
    · simpa [hr] using hu
    · by_cases hseg : segs = [] <;> simpa [hr, hseg] using hu
  · refine ⟨tailr, ?_⟩
    rw [hsyn]
    rcases hr : (synthLoop f chunks).2 with e | segs
    · simpa [hr] using h2
    · by_cases hseg : segs = [] <;> simpa [hr, hseg] using h2
  · intro hl
    have hz := h3 hl
    rw [hsyn, hz]
    exact ⟨rfl, rfl⟩
  · intro hall hne
    obtain ⟨h41, segs, h42, h43⟩ := h4 hall
    have hsegne : segs ≠ [] := by
      intro hz
      rw [hz] at h43
      rw [h41] at h43
      exact hne (List.eq_nil_of_length_eq_zero h43.symm)
    rw [hsyn, h42]
    simp only [if_neg hsegne]
    exact ⟨segs.flatten, rfl⟩

/-! ### Job tracker lemmas (for C4, C5, C7, C8) -/

lemma applyEvs_append (st : TaskState) (l1 l2 : List Ev) :
    applyEvs st (l1 ++ l2) = applyEvs (applyEvs st l1) l2 :=
  List.foldl_append _ _ _ _

lemma progressVals_append (l1 l2 : List Ev) :
    progressVals (l1 ++ l2) = progressVals l1 ++ progressVals l2 :=
  List.filterMap_append _ _ _

lemma progressVals_of_setProgress (g : Nat → Nat) (l : List Nat) :
    progressVals (l.map (fun j => Ev.setProgress (g j))) = l.map g := by
  unfold progressVals
  rw [List.filterMap_map]
  exact List.filterMap_eq_map g ▸ rfl

/-- The last progress value written (with the starting value prepended) is
the final tracker progress: events after the last `setProgress` do not
touch the progress field. -/
lemma getLast_progress (evs : List Ev) : ∀ st : TaskState,
    (st.progress :: progressVals evs).getLast? = some (applyEvs st evs).progress := by
  induction evs with
  | nil => intro st; rfl
  | cons ev rest ih =>
    intro st
    cases ev with
    | setProgress p =>
      have h1 : progressVals (Ev.setProgress p :: rest) = p :: progressVals rest := rfl
      rw [h1, List.getLast?_cons_cons]
      exact ih { st with progress := p }
    | setStatus s => exact ih { st with status := s }
    | setError e => exact ih { st with error := some e }
    | setAudioUrl u => exact ih { st with audio_url := some u }

/-- Events emitted by the chunk loop: one progress update per completed
chunk, `k` of them where `k` counts the chunks processed before the first
failure (all of them on success). -/
lemma jobLoop_events (synthFn : String → Except String (Wav × Nat)) (total : Nat) :
    ∀ (cs : List String) (i : Nat) (segs : List (List ℚ)),
      ∃ k, k ≤ cs.length ∧
        (jobLoop synthFn total cs i segs).1 =
          (List.range k).map (fun j => Ev.setProgress (5 + 85 * (i + j) / total)) ∧
        (∀ segs2, (jobLoop synthFn total cs i segs).2 = Except.ok segs2 → k = cs.length) := by
  intro cs
  induction cs with
  | nil =>
    intro i segs
    exact ⟨0, by simp, by simp [jobLoop], fun _ _ => rfl⟩
  | cons c rest ih =>
    intro i segs
    cases hf : synthFn c with
    | error e =>
      refine ⟨0, by simp, by simp [jobLoop, hf], ?_⟩
      intro segs2 h2
      simp [jobLoop, hf] at h2
    | ok p =>
      obtain ⟨w, sr⟩ := p
      cases hd : decode_wav w sr with
      | error e =>
        refine ⟨0, by simp, by simp [jobLoop, hf, hd], ?_⟩
        intro segs2 h2
        simp [jobLoop, hf, hd] at h2
      | ok seg =>
        obtain ⟨k, hk, hevs, hok⟩ := ih (i + 1) (segs ++ [seg, silence35])
        refine ⟨k + 1, by simp; omega, ?_, ?_⟩
        · simp only [jobLoop, hf, hd]
          rw [List.range_succ_eq_map, List.map_cons, List.map_map, hevs]
          have htail : ((List.range k).map (fun j => Ev.setProgress (5 + 85 * (i + 1 + j) / total)))
              = (List.range k).map ((fun j => Ev.setProgress (5 + 85 * (i + j) / total)) ∘ (· + 1)) := by
            congr 1
            funext j
            simp only [Function.comp]
            rw [show i + 1 + j = i + (j + 1) from by omega]
          rw [htail, Nat.add_zero]
        · intro segs2 h2
          have : (jobLoop synthFn total rest (i + 1) (segs ++ [seg, silence35])).2
              = Except.ok segs2 := by
            simpa [jobLoop, hf, hd] using h2
          rw [hok segs2 this]
          simp

/-- On the all-chunks-succeed path the loop accumulates, in chunk order,
each decoded segment followed by the fixed 0.35 s silence. -/
lemma jobLoop_ok (synthFn : String → Except String (Wav × Nat)) (total : Nat)
    (dec : String → List ℚ) :
    ∀ (cs : List String) (i : Nat) (segs : List (List ℚ)),
      (∀ c ∈ cs, ∃ w sr, synthFn c = Except.ok (w, sr) ∧
        decode_wav w sr = Except.ok (dec c)) →
      (jobLoop synthFn total cs i segs).2 =
        Except.ok (segs ++ (cs.map (fun c => [dec c, silence35])).flatten) := by
  intro cs
  induction cs with
  | nil => intro i segs _; simp [jobLoop]
  | cons c rest ih =>
    intro i segs h
    obtain ⟨w, sr, hf, hd⟩ := h c (List.mem_cons_self _ _)
    simp only [jobLoop, hf, hd]
    rw [ih (i + 1) (segs ++ [dec c, silence35])
      (fun c2 hc2 => h c2 (List.mem_cons_of_mem _ hc2))]
    simp

/-- The loop's progress values are non-decreasing. -/
lemma chain_progress (total : Nat) (k i : Nat) :
    List.Chain' (· ≤ ·) ((List.range k).map (fun j => 5 + 85 * (i + j) / total)) := by
  rw [List.chain'_map]
  cases k with
  | zero => simp
  | succ k2 =>
    refine (List.chain'_range_succ _ k2).2 ?_
    intro m _
    apply Nat.add_le_add_left
    exact Nat.div_le_div_right (Nat.mul_le_mul_left 85 (by omega))

lemma progress_le_90 (total : Nat) (k : Nat) (hk : k ≤ total) :
    ∀ x ∈ (List.range k).map (fun j => 5 + 85 * (1 + j) / total), x ≤ 90 := by
  intro x hx
  obtain ⟨j, hj, hval⟩ := List.mem_map.1 hx
  rw [List.mem_range] at hj
  rw [← hval]
  have h1 : 85 * (1 + j) ≤ 85 * total := Nat.mul_le_mul_left 85 (by omega)
  have h2 : 85 * (1 + j) / total ≤ 85 * total / total := Nat.div_le_div_right h1
  have h3 : 85 * total / total ≤ 85 := by
    cases total with
    | zero => simp
    | succ t => rw [Nat.mul_div_cancel _ (Nat.succ_pos t)]
  omega

lemma sum_map_add_const {α : Type} (f : α → Nat) (c : Nat) :
    ∀ l : List α, (l.map (fun x => f x + c)).sum = (l.map f).sum + l.length * c := by
  intro l
  induction l with
  | nil => simp
  | cons x xs ih =>
    simp only [List.map_cons, List.sum_cons, List.length_cons, ih]
    ring

lemma flatten_pairs (dec : String → List ℚ) (sil : List ℚ) :
    ∀ cs : List String,
      ((cs.map (fun c => [dec c, sil])).flatten).flatten
        = (cs.map (fun c => dec c ++ sil)).flatten := by
  intro cs
  induction cs with
  | nil => simp
  | cons c rest ih =>
    simp only [List.map_cons, List.flatten_cons, List.flatten_append]
    rw [ih]
    simp [List.append_assoc]

lemma countP_shift_mod4 : ∀ n : Nat,
    (List.range n).countP (fun j => decide ((1 + j) % 4 = 0)) = n / 4 := by
  intro n
  induction n with
  | zero => simp
  | succ n ih =>
    have hr : List.range (n + 1) = List.range n ++ [n] := by
      have h2 := List.range_succ (n := n)
      rwa [Nat.succ_eq_add_one] at h2
    rw [hr, List.countP_append]
    rw [Nat.succ_div, ih]
    simp only [List.countP_cons, List.countP_nil]
    by_cases h : 4 ∣ n + 1
    · rw [if_pos h]
      have hm : (1 + n) % 4 = 0 := by
        rw [Nat.add_comm]
        exact Nat.dvd_iff_mod_eq_zero.mp h
      simp [hm]
    · rw [if_neg h]
      have hm : ¬((1 + n) % 4 = 0) := by
        rw [Nat.add_comm]
        intro hc
        exact h (Nat.dvd_iff_mod_eq_zero.mpr hc)
      simp [hm]

/-- Length of the tts-correct-v assembly: segments, a 0.35 s pause per
chunk, and a 0.9 s pause per every-4th chunk position. -/
lemma correctVLoop_length (dec2 : String → List ℚ) :
    ∀ (chunks : List String) (idx : Nat),
      ((correctVLoop dec2 chunks idx).flatten).length =
        (chunks.map (fun c => (dec2 c).length)).sum + chunks.length * 8400
          + 21600 * ((List.range chunks.length).countP
              (fun j => decide ((idx + j) % 4 = 0))) := by
  intro chunks
  induction chunks with
  | nil => intro idx; simp [correctVLoop]
  | cons c rest ih =>
    intro idx
    have hstep : (correctVLoop dec2 (c :: rest) idx).flatten =
        dec2 c ++ silence35 ++ (if idx % 4 = 0 then silence90 else [])
          ++ (correctVLoop dec2 rest (idx + 1)).flatten := by
      simp only [correctVLoop]
      by_cases h : idx % 4 = 0
      · rw [if_pos h, if_pos h]
        simp only [List.flatten_append, List.flatten_cons, List.flatten_nil,
          List.append_nil, List.append_assoc]
      · rw [if_neg h, if_neg h]
        simp only [List.flatten_append, List.flatten_cons, List.flatten_nil,
          List.append_nil, List.nil_append, List.append_assoc]
    have hsil : (silence35 : List ℚ).length = 8400 := by
      unfold silence35
      rw [List.length_replicate]
    have hcount : (List.range (rest.length + 1)).countP
          (fun j => decide ((idx + j) % 4 = 0))
        = (if (idx % 4 = 0) then 1 else 0)
          + (List.range rest.length).countP (fun j => decide ((idx + 1 + j) % 4 = 0)) := by
      rw [List.range_succ_eq_map, List.countP_cons, List.countP_map]
      have heq : ((fun j => decide ((idx + j) % 4 = 0)) ∘ (· + 1)) =
          (fun j => decide ((idx + 1 + j) % 4 = 0)) := by
        funext j
        simp only [Function.comp]
        rw [show idx + (j + 1) = idx + 1 + j from by omega]
      rw [heq]
      have h0 : (idx + 0) % 4 = idx % 4 := by rw [Nat.add_zero]
      by_cases h : idx % 4 = 0
      · rw [if_pos h]
        have hd : decide ((idx + 0) % 4 = 0) = true := by simp [h0, h]
        rw [hd]
        simp only [if_true]
        omega
      · rw [if_neg h]
        have hd : decide ((idx + 0) % 4 = 0) = false := by simp [h0, h]
        rw [hd]
        simp
    rw [hstep]
    simp only [List.length_append, List.map_cons, List.sum_cons, List.length_cons]
    rw [ih (idx + 1), hsil, hcount]
    by_cases h : idx % 4 = 0
    · rw [if_pos h, if_pos h]
      have h9 : (silence90 : List ℚ).length = 21600 := by
        unfold silence90
        rw [List.length_replicate]
      rw [h9]
      ring
    · rw [if_neg h, if_neg h]
      simp only [List.length_nil]
      ring

lemma mem_of_mem_getLast? {α : Type} {l : List α} {x : α} (h : x ∈ l.getLast?) : x ∈ l := by
  obtain ⟨hne, hx⟩ := List.mem_getLast?_eq_getLast h
  rw [hx]
  exact List.getLast_mem hne

/-- Behaviour of `run_tts_job` when loading the reference voice raises. -/
lemma run_tts_job_err_branch (taskId text e : String)
    (synthFn : String → Except String (Wav × Nat)) :
    run_tts_job taskId text (Except.error e) synthFn =
      ⟨[Ev.setStatus "processing", Ev.setProgress 5, Ev.setStatus "failed", Ev.setError e],
        Except.error e⟩ := rfl

/-- Behaviour of `run_tts_job` after the reference voice loads, without `let`s. -/
lemma run_tts_job_ok_branch (taskId text : String)
    (synthFn : String → Except String (Wav × Nat)) :
    run_tts_job taskId text (Except.ok ()) synthFn =
      (match (jobLoop synthFn (create_chunks text 240).length (create_chunks text 240) 1 []).2 with
       | Except.error e =>
         ⟨[Ev.setStatus "processing", Ev.setProgress 5]
           ++ (jobLoop synthFn (create_chunks text 240).length (create_chunks text 240) 1 []).1
           ++ [Ev.setStatus "failed", Ev.setError e], Except.error e⟩
       | Except.ok segs =>
         if segs = [] then
           ⟨[Ev.setStatus "processing", Ev.setProgress 5]
             ++ (jobLoop synthFn (create_chunks text 240).length (create_chunks text 240) 1 []).1
             ++ [Ev.setStatus "failed",
                Ev.setError "need at least one array to concatenate"],
            Except.error "need at least one array to concatenate"⟩
         else
           ⟨[Ev.setStatus "processing", Ev.setProgress 5]
             ++ (jobLoop synthFn (create_chunks text 240).length (create_chunks text 240) 1 []).1
             ++ [Ev.setStatus "completed", Ev.setProgress 100,
                Ev.setAudioUrl ("/output/audio/" ++ taskId ++ ".wav")],
            Except.ok segs.flatten⟩) := rfl

lemma chain_full (total k : Nat) :
    List.Chain' (· ≤ ·)
      (0 :: 5 :: (List.range k).map (fun j => 5 + 85 * (1 + j) / total)) := by
  rw [List.chain'_cons]
  refine ⟨by omega, ?_⟩
  rw [List.chain'_cons']
  refine ⟨?_, chain_progress total k 1⟩
  intro y hy
  cases k with
  | zero => simp at hy
  | succ k2 =>
    rw [List.range_succ_eq_map, List.map_cons] at hy
    simp only [List.head?_cons, Option.mem_def, Option.some.injEq] at hy
    rw [← hy]
    exact Nat.le_add_right 5 _

lemma chain_full_100 (total k : Nat) (hk : k ≤ total) :
    List.Chain' (· ≤ ·)
      ((0 :: 5 :: (List.range k).map (fun j => 5 + 85 * (1 + j) / total)) ++ [100]) := by
  rw [List.chain'_append]
  refine ⟨chain_full total k, List.chain'_singleton _, ?_⟩
  intro x hx y hy
  simp only [List.head?_cons, Option.mem_def, Option.some.injEq] at hy
  rw [← hy]
  rw [List.getLast?_cons_cons] at hx
  cases hm : (List.range k).map (fun j => 5 + 85 * (1 + j) / total) with
  | nil =>
    rw [hm] at hx
    have : 5 = x := by simpa using hx
    omega
  | cons m ms =>
    rw [hm, List.getLast?_cons_cons] at hx
    have hxm : x ∈ (List.range k).map (fun j => 5 + 85 * (1 + j) / total) := by
      rw [hm]
      exact mem_of_mem_getLast? hx
    have := progress_le_90 total k hk x hxm
    omega

/-! ### Claim C4 -/

/-- C4: across the tracker updates of `run_tts_job`, progress never
decreases (starting from the created entry's 0); the final progress always
equals the last progress value written (so a failure leaves progress at its
last-updated value, not reset); and when any step raises, the final status
is `failed` (never `completed`) with the error message set to the raised
exception's message. -/
theorem run_tts_job_progress_failure (taskId text : String)
    (refLoad : Except String Unit) (synthFn : String → Except String (Wav × Nat)) :
    List.Chain' (· ≤ ·)
      (initTask.progress :: progressVals (run_tts_job taskId text refLoad synthFn).events) ∧
    ((initTask.progress :: progressVals (run_tts_job taskId text refLoad synthFn).events).getLast?
      = some (applyEvs initTask (run_tts_job taskId text refLoad synthFn).events).progress) ∧
    ∀ e, (run_tts_job taskId text refLoad synthFn).result = Except.error e →
      (applyEvs initTask (run_tts_job taskId text refLoad synthFn).events).status = "failed" ∧
      (applyEvs initTask (run_tts_job taskId text refLoad synthFn).events).status ≠ "completed" ∧
      (applyEvs initTask (run_tts_job taskId text refLoad synthFn).events).error = some e := by
  have hpre : progressVals [Ev.setStatus "processing", Ev.setProgress 5] = [5] := rfl
  refine ⟨?_, getLast_progress _ _, ?_⟩
  · cases refLoad with
    | error e0 =>
      rw [run_tts_job_err_branch]
      have hx : progressVals [Ev.setStatus "processing", Ev.setProgress 5,
          Ev.setStatus "failed", Ev.setError e0] = [5] := rfl
      show List.Chain' (· ≤ ·) (0 :: progressVals [Ev.setStatus "processing",
        Ev.setProgress 5, Ev.setStatus "failed", Ev.setError e0])
      rw [hx]
      simp
    | ok u =>
      cases u
      rw [run_tts_job_ok_branch]
      obtain ⟨k, hk, hevs, hkok⟩ := jobLoop_events synthFn
        (create_chunks text 240).length (create_chunks text 240) 1 []
      rcases hres : (jobLoop synthFn (create_chunks text 240).length
          (create_chunks text 240) 1 []).2 with e1 | segs
      · simp only [hres]
        show List.Chain' (· ≤ ·) (0 :: progressVals ([Ev.setStatus "processing",
          Ev.setProgress 5] ++ (jobLoop synthFn (create_chunks text 240).length
            (create_chunks text 240) 1 []).1 ++ [Ev.setStatus "failed", Ev.setError e1]))
        rw [progressVals_append, progressVals_append, hevs,
          progressVals_of_setProgress, hpre]
        have htail : progressVals [Ev.setStatus "failed", Ev.setError e1] = [] := rfl
        rw [htail, List.append_nil, List.singleton_append]
        exact chain_full _ k
      · by_cases hseg : segs = []
        · simp only [hres, if_pos hseg]
          show List.Chain' (· ≤ ·) (0 :: progressVals ([Ev.setStatus "processing",
            Ev.setProgress 5] ++ (jobLoop synthFn (create_chunks text 240).length
              (create_chunks text 240) 1 []).1 ++ [Ev.setStatus "failed",
              Ev.setError "need at least one array to concatenate"]))
          rw [progressVals_append, progressVals_append, hevs,
            progressVals_of_setProgress, hpre]
          have htail : progressVals [Ev.setStatus "failed",
            Ev.setError "need at least one array to concatenate"] = [] := rfl
          rw [htail, List.append_nil, List.singleton_append]
          exact chain_full _ k
        · simp only [hres, if_neg hseg]
          show List.Chain' (· ≤ ·) (0 :: progressVals ([Ev.setStatus "processing",
            Ev.setProgress 5] ++ (jobLoop synthFn (create_chunks text 240).length
              (create_chunks text 240) 1 []).1 ++ [Ev.setStatus "completed",
              Ev.setProgress 100, Ev.setAudioUrl ("/output/audio/" ++ taskId ++ ".wav")]))
          rw [progressVals_append, progressVals_append, hevs,
            progressVals_of_setProgress, hpre]
          have htail : progressVals [Ev.setStatus "completed", Ev.setProgress 100,
            Ev.setAudioUrl ("/output/audio/" ++ taskId ++ ".wav")] = [100] := rfl
          rw [htail, List.singleton_append]
          have hchain := chain_full_100 (create_chunks text 240).length k
            (hkok segs hres ▸ le_refl _)
          rw [List.cons_append, List.cons_append] at hchain
          exact hchain
  · intro e he
    cases refLoad with
    | error e0 =>
      rw [run_tts_job_err_branch] at he ⊢
      simp only [Except.error.injEq] at he
      subst he
      refine ⟨rfl, ?_, rfl⟩
      show ("failed" : String) ≠ "completed"
      decide
    | ok u =>
      cases u
      rw [run_tts_job_ok_branch] at he ⊢
      rcases hres : (jobLoop synthFn (create_chunks text 240).length
          (create_chunks text 240) 1 []).2 with e1 | segs
      · simp only [hres] at he ⊢
        simp only [Except.error.injEq] at he
        subst he
        rw [applyEvs_append]
        refine ⟨rfl, ?_, rfl⟩
        show ("failed" : String) ≠ "completed"
        decide
      · by_cases hseg : segs = []
        · simp only [hres, if_pos hseg] at he ⊢
          simp only [Except.error.injEq] at he
          subst he
          rw [applyEvs_append]
          refine ⟨rfl, ?_, rfl⟩
          show ("failed" : String) ≠ "completed"
          decide
        · simp only [hres, if_neg hseg] at he
          exact absurd he (by simp)

/-- Witness for C4: a job whose only chunk's synthesis raises `"boom"` ends
failed with that message. -/
theorem run_tts_job_progress_failure_witness :
    (applyEvs initTask (run_tts_job "t" "Hello there friend." (Except.ok ())
        (fun _ => Except.error "boom")).events).status = "failed" ∧
    (applyEvs initTask (run_tts_job "t" "Hello there friend." (Except.ok ())
        (fun _ => Except.error "boom")).events).error = some "boom" := by
  have h := (run_tts_job_progress_failure "t" "Hello there friend." (Except.ok ())
    (fun _ => Except.error "boom")).2.2 "boom" rfl
  exact ⟨h.1, h.2.2⟩

/-! ### Claim C5 -/

lemma sum_map_one {α : Type} : ∀ l : List α, (l.map (fun _ => (1 : Nat))).sum = l.length := by
  intro l
  induction l with
  | nil => rfl
  | cons x xs ih =>
    simp [ih]
    omega

/-- On the all-chunks-succeed path, `run_tts_job` writes exactly the
in-order concatenation of each chunk's decoded segment followed by the
fixed 0.35 s silence — and nothing else. -/
lemma run_tts_job_ok_formula (taskId text : String)
    (synthFn : String → Except String (Wav × Nat)) (dec : String → List ℚ)
    (hall : ∀ c ∈ create_chunks text 240, ∃ w sr, synthFn c = Except.ok (w, sr) ∧
      decode_wav w sr = Except.ok (dec c))
    (hne : create_chunks text 240 ≠ []) :
    (run_tts_job taskId text (Except.ok ()) synthFn).result =
      Except.ok (((create_chunks text 240).map (fun c => dec c ++ silence35)).flatten) := by
  have hloop := jobLoop_ok synthFn (create_chunks text 240).length dec
    (create_chunks text 240) 1 [] hall
  rw [run_tts_job_ok_branch]
  simp only [hloop]
  have hsegs : ([] ++ ((create_chunks text 240).map (fun c => [dec c, silence35])).flatten)
      ≠ ([] : List (List ℚ)) := by
    rw [List.nil_append]
    cases hcs : create_chunks text 240 with
    | nil => exact absurd hcs hne
    | cons c rest => simp
  rw [if_neg hsegs]
  show Except.ok (([] ++ ((create_chunks text 240).map
      (fun c => [dec c, silence35])).flatten).flatten) = _
  rw [List.nil_append, flatten_pairs]

lemma silence35_length : (silence35 : List ℚ).length = 8400 :=
  List.length_replicate 8400 0

lemma flatten_seg_length (dec : String → List ℚ) (cs : List String) :
    ((cs.map (fun c => dec c ++ silence35)).flatten).length =
      (cs.map (fun c => (dec c).length)).sum + cs.length * 8400 := by
  rw [List.length_flatten, List.map_map]
  have hfun : (List.length ∘ fun c => dec c ++ silence35) =
      fun c => (dec c).length + 8400 := by
    funext c
    simp only [Function.comp]
    rw [List.length_append, silence35_length]
  rw [hfun, sum_map_add_const]

/-- C5 counterexample: with four chunks (four 121-character sentences under
the 240 limit) each decoding to a single sample, `run_tts_job` writes
4 · (1 + 8400) = 33604 samples — there is no additional 0.9 s
(21600-sample) pause after the 4th chunk, so the length the claim predicts
(55204) is wrong for this pipeline. -/
lemma splitTermGo_false_cons (c : Char) (rest acc : List Char) :
    splitTermGo false (c :: rest) acc =
      if pyIsSpace c && (match acc with | p :: _ => isTerm p | [] => false) then
        acc.reverse :: splitTermGo true rest []
      else splitTermGo false rest (c :: acc) := rfl

lemma splitTermGo_true_cons (c : Char) (rest acc : List Char) :
    splitTermGo true (c :: rest) acc =
      if pyIsSpace c then splitTermGo true rest acc
      else splitTermGo false rest [c] := rfl

lemma splitTermGo_nil (b : Bool) (acc : List Char) :
    splitTermGo b [] acc = [acc.reverse] := by
  cases b <;> rfl

/-- Scanning a whitespace-free word just accumulates its characters. -/
lemma splitTermGo_word : ∀ (w : List Char), (∀ c ∈ w, pyIsSpace c = false) →
    ∀ (cs acc : List Char),
      splitTermGo false (w ++ cs) acc = splitTermGo false cs (w.reverse ++ acc) := by
  intro w
  induction w with
  | nil => intro _ cs acc; simp
  | cons c w2 ih =>
    intro hw cs acc
    have hc : pyIsSpace c = false := hw c (List.mem_cons_self _ _)
    rw [List.cons_append, splitTermGo_false_cons, hc]
    rw [if_neg (by simp)]
    rw [ih (fun x hx => hw x (List.mem_cons_of_mem _ hx)) cs (c :: acc)]
    rw [List.reverse_cons, List.append_assoc]
    rfl

/-- A space after terminal punctuation closes the current piece. -/
lemma splitTermGo_sep (cs acc : List Char) (p : Char) (hp : isTerm p = true) :
    splitTermGo false (' ' :: cs) (p :: acc) =
      (p :: acc).reverse :: splitTermGo true cs [] := by
  rw [splitTermGo_false_cons]
  have hcond : (pyIsSpace ' ' &&
      (match p :: acc with | q :: _ => isTerm q | [] => false)) = true := by
    show (pyIsSpace ' ' && isTerm p) = true
    rw [hp]
    rfl
  rw [if_pos hcond]

/-- A non-space character ends the separator run and starts a new piece. -/
lemma splitTermGo_resume (c : Char) (cs : List Char) (hc : pyIsSpace c = false) :
    splitTermGo true (c :: cs) [] = splitTermGo false cs [c] := by
  rw [splitTermGo_true_cons, hc]
  rw [if_neg (by simp)]

lemma dropWhile_head_false (p : Char → Bool) (l : List Char)
    (h : ∀ c ∈ l.head?, p c = false) : l.dropWhile p = l := by
  cases l with
  | nil => rfl
  | cons c cs =>
    have hc : p c = false := h c rfl
    exact List.dropWhile_cons_of_neg (by simp [hc])

/-- Stripping is the identity when neither end is whitespace. -/
lemma pyStrip_id (l : List Char) (h1 : ∀ c ∈ l.head?, pyIsSpace c = false)
    (h2 : ∀ c ∈ l.getLast?, pyIsSpace c = false) : pyStrip ⟨l⟩ = ⟨l⟩ := by
  unfold pyStrip
  show (⟨((l.dropWhile pyIsSpace).reverse.dropWhile pyIsSpace).reverse⟩ : String) = ⟨l⟩
  rw [dropWhile_head_false _ l h1]
  rw [dropWhile_head_false _ l.reverse (by rw [List.head?_reverse]; exact h2)]
  rw [List.reverse_reverse]

/-- Sentences of equal length `ℓ` with `2ℓ > m` each close their own chunk. -/
lemma chunksAux_uniform (m ℓ : Nat) (hm : m < ℓ + ℓ) (hl : 0 < ℓ) :
    ∀ (ss : List String) (cur : String), cur.length = ℓ → (∀ s ∈ ss, s.length = ℓ) →
      chunksAux m ss [] cur = cur :: ss := by
  intro ss
  induction ss with
  | nil =>
    intro cur hcur _
    have : cur ≠ "" := string_ne_empty_of_length_pos (hcur ▸ hl)
    simp [chunksAux, this]
  | cons s rest ih =>
    intro cur hcur hss
    have hov : cur.length + s.length > m := by
      rw [hcur, hss s (List.mem_cons_self _ _)]
      omega
    simp only [chunksAux, if_pos hov]
    rw [chunksAux_append,
      ih s (hss s (List.mem_cons_self _ _)) (fun t ht => hss t (List.mem_cons_of_mem _ ht))]
    rfl

/-- C5 counterexample: with four chunks (four 121-character sentences under
the 240-character limit) each decoding to a single sample, `run_tts_job`
writes 4 · (1 + 8400) = 33604 samples — there is no additional 0.9 s
(21600-sample) pause after the 4th chunk, so the length the claim predicts
(4 · 1 + 4 · 8400 + 21600 = 55204) is wrong for this pipeline. -/
theorem run_tts_job_no_paragraph_pause_cex :
    Except.map List.length
        (run_tts_job "t"
          ⟨(List.replicate 120 'a' ++ ['.']) ++ ' ' :: ((List.replicate 120 'a' ++ ['.'])
            ++ ' ' :: ((List.replicate 120 'a' ++ ['.'])
            ++ ' ' :: (List.replicate 120 'a' ++ ['.'])))⟩
          (Except.ok ()) (fun _ => Except.ok (Wav.mono [1], 24000))).result
      = Except.ok 33604 ∧ (33604 : Nat) ≠ 4 * 1 + 4 * 8400 + 21600 := by
  set wc : List Char := List.replicate 120 'a' ++ ['.'] with hwcdef
  have hwns : ∀ c ∈ wc, pyIsSpace c = false := by
    intro c hc
    rw [hwcdef] at hc
    rcases List.mem_append.1 hc with h | h
    · rw [List.eq_of_mem_replicate h]; rfl
    · have : c = '.' := by simpa using h
      rw [this]; rfl
  have hw120 : wc = 'a' :: (List.replicate 119 'a' ++ ['.']) := by
    rw [hwcdef, show (120 : Nat) = 119 + 1 from rfl, List.replicate_succ, List.cons_append]
  have hw2ns : ∀ c ∈ (List.replicate 119 'a' ++ ['.']), pyIsSpace c = false := by
    intro c hc
    rcases List.mem_append.1 hc with h | h
    · rw [List.eq_of_mem_replicate h]; rfl
    · have : c = '.' := by simpa using h
      rw [this]; rfl
  have hrevwc : wc.reverse = '.' :: (List.replicate 120 'a').reverse := by
    rw [hwcdef, List.reverse_append]
    rfl
  have hrevw2 : (List.replicate 119 'a' ++ ['.']).reverse ++ ['a'] =
      '.' :: ((List.replicate 119 'a').reverse ++ ['a']) := by
    rw [List.reverse_append]
    rfl
  have hpiece : ('.' :: ((List.replicate 119 'a').reverse ++ ['a'])).reverse = wc := by
    rw [List.reverse_cons, List.reverse_append, List.reverse_reverse]
    rw [hwcdef, show (120 : Nat) = 119 + 1 from rfl, List.replicate_succ]
    rfl
  have hstep0 : ∀ cs, splitTermGo false (wc ++ ' ' :: cs) [] = wc :: splitTermGo true cs [] := by
    intro cs
    rw [splitTermGo_word wc hwns (' ' :: cs) [], List.append_nil, hrevwc,
      splitTermGo_sep _ _ '.' rfl]
    rw [← hrevwc, List.reverse_reverse]
  have hstepT : ∀ cs, splitTermGo true (wc ++ ' ' :: cs) [] = wc :: splitTermGo true cs [] := by
    intro cs
    rw [hw120, List.cons_append, splitTermGo_resume 'a' _ rfl,
      splitTermGo_word _ hw2ns (' ' :: cs) ['a'], hrevw2,
      splitTermGo_sep _ _ '.' rfl, hpiece, hw120]
  have hstepEnd : splitTermGo true wc [] = [wc] := by
    rw [hw120, splitTermGo_resume 'a' _ rfl]
    rw [show (List.replicate 119 'a' ++ ['.'])
      = (List.replicate 119 'a' ++ ['.']) ++ ([] : List Char) from (List.append_nil _).symm]
    rw [splitTermGo_word _ hw2ns [] ['a'], hrevw2, splitTermGo_nil, hpiece,
      List.append_nil, hw120]
  have hsplit4 : splitTerm (wc ++ ' ' :: (wc ++ ' ' :: (wc ++ ' ' :: wc)))
      = [wc, wc, wc, wc] := by
    unfold splitTerm
    rw [hstep0, hstepT, hstepT, hstepEnd]
  have hlastwc : wc.getLast? = some '.' := by
    rw [hwcdef, List.getLast?_concat]
  have hheadwc : wc.head? = some 'a' := by
    rw [hw120]
    rfl
  have hcharshead : (wc ++ ' ' :: (wc ++ ' ' :: (wc ++ ' ' :: wc))).head? = some 'a' := by
    rw [hw120, List.cons_append]
    rfl
  have hcharslast :
      '.' ∈ (wc ++ ' ' :: (wc ++ ' ' :: (wc ++ ' ' :: wc))).getLast? := by
    exact List.mem_getLast?_append_of_mem_getLast? (List.mem_getLast?_cons
      (List.mem_getLast?_append_of_mem_getLast? (List.mem_getLast?_cons
        (List.mem_getLast?_append_of_mem_getLast? (List.mem_getLast?_cons hlastwc)))))
  have hstrip : pyStrip ⟨wc ++ ' ' :: (wc ++ ' ' :: (wc ++ ' ' :: wc))⟩
      = ⟨wc ++ ' ' :: (wc ++ ' ' :: (wc ++ ' ' :: wc))⟩ := by
    apply pyStrip_id
    · intro c hc
      rw [hcharshead] at hc
      have hfl : 'a' = c := by simpa using hc
      rw [← hfl]; rfl
    · intro c hc
      rw [Option.mem_def] at hc hcharslast
      rw [hc] at hcharslast
      have : c = '.' := by simpa using hcharslast
      rw [this]; rfl
  have hpswc : pyStrip ⟨wc⟩ = ⟨wc⟩ := by
    apply pyStrip_id
    · intro c hc
      rw [hheadwc] at hc
      have hfl : 'a' = c := by simpa using hc
      rw [← hfl]; rfl
    · intro c hc
      rw [hlastwc] at hc
      have hfl : '.' = c := by simpa using hc
      rw [← hfl]; rfl
  have hwcne : (⟨wc⟩ : String) ≠ "" := by
    intro h
    have h2 := congrArg String.data h
    rw [hwcdef] at h2
    simp at h2
  have hsent4 : split_into_sentences ⟨wc ++ ' ' :: (wc ++ ' ' :: (wc ++ ' ' :: wc))⟩
      = [⟨wc⟩, ⟨wc⟩, ⟨wc⟩, ⟨wc⟩] := by
    unfold split_into_sentences
    rw [hstrip]
    show ((splitTerm (wc ++ ' ' :: (wc ++ ' ' :: (wc ++ ' ' :: wc)))).map
      (fun l => pyStrip ⟨l⟩)).filter (fun s => s != "") = _
    rw [hsplit4]
    simp only [List.map_cons, List.map_nil]
    rw [hpswc]
    have hbe : ((⟨wc⟩ : String) != "") = true := bne_iff_ne.mpr hwcne
    simp [List.filter_cons, hbe]
  have hslen : (⟨wc⟩ : String).length = 121 := by
    show wc.length = 121
    rw [hwcdef, List.length_append, List.length_replicate]
    rfl
  have hchunks4 : create_chunks ⟨wc ++ ' ' :: (wc ++ ' ' :: (wc ++ ' ' :: wc))⟩ 240
      = [⟨wc⟩, ⟨wc⟩, ⟨wc⟩, ⟨wc⟩] := by
    unfold create_chunks
    rw [hsent4]
    have hcond : ¬(("" : String).length + (⟨wc⟩ : String).length > 240) := by
      rw [hslen]
      have h0 : ("" : String).length = 0 := rfl
      omega
    simp only [chunksAux, if_neg hcond, if_pos rfl]
    refine chunksAux_uniform 240 121 (by omega) (by omega) [⟨wc⟩, ⟨wc⟩, ⟨wc⟩] ⟨wc⟩ hslen ?_
    intro t ht
    have : t = (⟨wc⟩ : String) := by
      rcases List.mem_cons.1 ht with h | h2
      · exact h
      rcases List.mem_cons.1 h2 with h | h3
      · exact h
      · simpa using h3
    rw [this]
    exact hslen
  have hne4 : create_chunks ⟨wc ++ ' ' :: (wc ++ ' ' :: (wc ++ ' ' :: wc))⟩ 240 ≠ [] := by
    rw [hchunks4]
    simp
  have hres := run_tts_job_ok_formula "t"
    ⟨wc ++ ' ' :: (wc ++ ' ' :: (wc ++ ' ' :: wc))⟩
    (fun _ => Except.ok (Wav.mono [1], 24000)) (fun _ => [1])
    (fun c _ => ⟨Wav.mono [1], 24000, rfl, rfl⟩) hne4
  constructor
  · rw [hres]
    have hlen : (((create_chunks ⟨wc ++ ' ' :: (wc ++ ' ' :: (wc ++ ' ' :: wc))⟩ 240).map
        (fun c => (fun _ => ([1] : List ℚ)) c ++ silence35)).flatten).length = 33604 := by
      rw [flatten_seg_length, hchunks4]
      decide
    simp only [Except.map]
    rw [hlen]
  · decide

/-- C5 (amended): `run_tts_job` assembles, strictly in chunk-index order,
each chunk's decoded segment followed by a fixed 0.35 s (8400-sample)
silence — no reordering, no drops — and the final length is the sum of the
segment lengths plus 8400 per chunk; there is no periodic longer pause in
this pipeline.  The every-4th-chunk 0.9 s (21600-sample) paragraph pause
exists only in the tts-correct-v variant's assembly, whose length is the
sum of segments plus 8400 per chunk plus 21600 per started group of 4. -/
theorem assembly_order_and_pauses (taskId text : String)
    (synthFn : String → Except String (Wav × Nat)) (dec : String → List ℚ)
    (hall : ∀ c ∈ create_chunks text 240, ∃ w sr, synthFn c = Except.ok (w, sr) ∧
      decode_wav w sr = Except.ok (dec c))
    (hne : create_chunks text 240 ≠ []) :
    (run_tts_job taskId text (Except.ok ()) synthFn).result =
      Except.ok (((create_chunks text 240).map (fun c => dec c ++ silence35)).flatten) ∧
    (((create_chunks text 240).map (fun c => dec c ++ silence35)).flatten).length =
      ((create_chunks text 240).map (fun c => (dec c).length)).sum
        + (create_chunks text 240).length * 8400 ∧
    ∀ (text2 : String) (dec2 : String → List ℚ),
      (generate_tts_audio text2 dec2).length =
        ((create_chunks text2 240).map (fun c => (dec2 c).length)).sum
          + (create_chunks text2 240).length * 8400
          + ((create_chunks text2 240).length / 4) * 21600 := by
  refine ⟨run_tts_job_ok_formula taskId text synthFn dec hall hne,
    flatten_seg_length dec _, ?_⟩
  intro text2 dec2
  unfold generate_tts_audio
  rw [correctVLoop_length, countP_shift_mod4]
  ring

/-- Witness for C5: a one-chunk job writes its decoded segment followed by
the 0.35 s silence. -/
theorem assembly_order_and_pauses_witness :
    (run_tts_job "t" "Hello world. This is a test." (Except.ok ())
        (fun _ => Except.ok (Wav.mono [1], 24000))).result =
      Except.ok (((create_chunks "Hello world. This is a test." 240).map
        (fun c => (fun _ => ([1] : List ℚ)) c ++ silence35)).flatten) :=
  (assembly_order_and_pauses "t" "Hello world. This is a test."
    (fun _ => Except.ok (Wav.mono [1], 24000)) (fun _ => [1])
    (fun c _ => ⟨Wav.mono [1], 24000, rfl, rfl⟩) (by decide)).1

/-! ### Claim C8 -/

/-- C8 counterexample: on whitespace-only input the chunker returns no
chunks and the job does end `failed` — but the error raised is numpy's
`"need at least one array to concatenate"` from the final concatenation,
not a validation error (the message never mentions validity or the input),
and no explicit zero-chunk check exists. -/
theorem run_tts_job_empty_concat_cex :
    create_chunks "   " 240 = [] ∧
    (run_tts_job "t" "   " (Except.ok ()) (fun _ => Except.ok (Wav.mono [1], 24000))).result
      = Except.error "need at least one array to concatenate" ∧
    containsChars "valid".toList "need at least one array to concatenate".toList = false ∧
    (applyEvs initTask (run_tts_job "t" "   " (Except.ok ())
        (fun _ => Except.ok (Wav.mono [1], 24000))).events).status = "failed" :=
  ⟨by decide, rfl, by decide, rfl⟩

/-- C8 (amended): empty or whitespace-only input yields an empty chunk
list, and the job then always ends `failed` — never `completed`, with no
audio written — but through the empty-concatenation `ValueError`
(`"need at least one array to concatenate"`) raised at the assembly step,
not through an explicit up-front validation check. -/
theorem run_tts_job_empty_input (taskId text : String)
    (synthFn : String → Except String (Wav × Nat)) (hws : pyStrip text = "") :
    create_chunks text 240 = [] ∧
    (run_tts_job taskId text (Except.ok ()) synthFn).result
      = Except.error "need at least one array to concatenate" ∧
    (applyEvs initTask (run_tts_job taskId text (Except.ok ()) synthFn).events).status
      = "failed" ∧
    (applyEvs initTask (run_tts_job taskId text (Except.ok ()) synthFn).events).status
      ≠ "completed" ∧
    (applyEvs initTask (run_tts_job taskId text (Except.ok ()) synthFn).events).error
      = some "need at least one array to concatenate" := by
  have hsent : split_into_sentences text = [] := by
    unfold split_into_sentences
    rw [hws]
    rfl
  have hchunks : create_chunks text 240 = [] := by
    unfold create_chunks
    rw [hsent]
    rfl
  have hrun : run_tts_job taskId text (Except.ok ()) synthFn =
      ⟨[Ev.setStatus "processing", Ev.setProgress 5, Ev.setStatus "failed",
        Ev.setError "need at least one array to concatenate"],
       Except.error "need at least one array to concatenate"⟩ := by
    rw [run_tts_job_ok_branch, hchunks]
    rfl
  refine ⟨hchunks, by rw [hrun], by rw [hrun]; rfl, ?_, by rw [hrun]; rfl⟩
  rw [hrun]
  show ("failed" : String) ≠ "completed"
  decide

/-- Witness for C8: a single-space input fails with the concatenation
error. -/
theorem run_tts_job_empty_input_witness :
    create_chunks " " 240 = [] ∧
    (run_tts_job "t" " " (Except.ok ()) (fun _ => Except.error "x")).result
      = Except.error "need at least one array to concatenate" := by
  have h := run_tts_job_empty_input "t" " " (fun _ => Except.error "x") (by decide)
  exact ⟨h.1, h.2.1⟩

/-! ### Claim C7 -/

/-- A trace ending in the success tail leaves the tracker status at
`completed`: the trailing progress and audio-url writes do not touch it. -/
lemma applyEvs_status_tail3 (st : TaskState) (l1 l2 : List Ev) (u : String) :
    (applyEvs st (l1 ++ (l2 ++ [Ev.setStatus "completed", Ev.setProgress 100,
      Ev.setAudioUrl u]))).status = "completed" := by
  rw [applyEvs_append, applyEvs_append]
  rfl

/-- C7 counterexample: `run_tts_job` has no minimum-length filter.  On the
input `"Hi there."` the single chunk's trimmed text has 9 < 20 characters,
yet the chunk IS sent to the remote model (a model that raises on every
call makes the job fail with that very error, so the call was made), and
with a succeeding model the all-short-chunks job completes with audio
instead of failing with a "no audio generated" error. -/
theorem run_tts_job_no_skip_cex :
    ((create_chunks "Hi there." 240).map pyStrip = ["Hi there."] ∧
      ("Hi there." : String).length < 20) ∧
    (run_tts_job "t" "Hi there." (Except.ok ())
        (fun _ => Except.error "remote call made")).result
      = Except.error "remote call made" ∧
    (∃ a, (run_tts_job "t" "Hi there." (Except.ok ())
        (fun _ => Except.ok (Wav.mono [1], 24000))).result = Except.ok a) ∧
    (applyEvs initTask (run_tts_job "t" "Hi there." (Except.ok ())
        (fun _ => Except.ok (Wav.mono [1], 24000))).events).status = "completed" :=
  ⟨⟨by decide, by decide⟩, rfl, ⟨_, rfl⟩, rfl⟩

/-- C7 (amended): the under-20-characters skip rule lives only in
`AudioSynthesizer.synthesize_chunks` — there, every text sent to the
remote model is at least 20 characters, the sent texts are an in-order
prefix of the stripped-and-punctuated long chunks, the all-skipped case
raises exactly `"No audio chunks generated"`, and skipped chunks never
fail a run that has a long chunk and a succeeding model.  The `run_tts_job`
pipeline (`tts.py`) has no such filter: the remote model is consulted on a
chunk regardless of its length (an error it raises on the first chunk
becomes the job's failure), and with a succeeding model the job completes
with one segment plus one 0.35 s silence per chunk — even when every
chunk is shorter than 20 characters — and never fails at all, in
particular not with a "no audio generated" error. -/
theorem short_chunk_skip_synthesizer_only (voiceId emb : String) (hemb : emb ≠ "")
    (f : String → Except String (List ℚ)) (chunks : List String)
    (taskId text : String) (synthFn : String → Except String (Wav × Nat))
    (dec : String → List ℚ) :
    ((∀ u ∈ (synthesize_chunks voiceId (some emb) f chunks).1, 20 ≤ u.length) ∧
     (∃ rest, ((chunks.map pyStrip).filter (fun c => decide (20 ≤ c.length))).map addDot
       = (synthesize_chunks voiceId (some emb) f chunks).1 ++ rest) ∧
     (((chunks.map pyStrip).filter (fun c => decide (20 ≤ c.length))).map addDot = [] →
       (synthesize_chunks voiceId (some emb) f chunks).1 = [] ∧
       (synthesize_chunks voiceId (some emb) f chunks).2
         = Except.error "No audio chunks generated") ∧
     ((∀ t, ∃ s, f t = Except.ok s) →
       ((chunks.map pyStrip).filter (fun c => decide (20 ≤ c.length))).map addDot ≠ [] →
       ∃ a, (synthesize_chunks voiceId (some emb) f chunks).2 = Except.ok a)) ∧
    (∀ c rest, create_chunks text 240 = c :: rest → ∀ e, synthFn c = Except.error e →
      (run_tts_job taskId text (Except.ok ()) synthFn).result = Except.error e) ∧
    ((∀ c ∈ create_chunks text 240, ∃ w sr, synthFn c = Except.ok (w, sr) ∧
        decode_wav w sr = Except.ok (dec c)) →
      create_chunks text 240 ≠ [] →
      (run_tts_job taskId text (Except.ok ()) synthFn).result =
        Except.ok (((create_chunks text 240).map (fun c => dec c ++ silence35)).flatten) ∧
      (applyEvs initTask (run_tts_job taskId text (Except.ok ()) synthFn).events).status
        = "completed" ∧
      ∀ e2, (run_tts_job taskId text (Except.ok ()) synthFn).result ≠ Except.error e2) := by
  refine ⟨synthesize_chunks_skip_spec voiceId emb hemb f chunks, ?_, ?_⟩
  · intro c rest hcs e hsf
    rw [run_tts_job_ok_branch, hcs]
    have hloop : jobLoop synthFn (c :: rest).length (c :: rest) 1 ([] : List (List ℚ))
        = ([], Except.error e) := by
      simp only [jobLoop, hsf]
    rw [hloop]
  · intro hall hne
    have hres := run_tts_job_ok_formula taskId text synthFn dec hall hne
    refine ⟨hres, ?_, ?_⟩
    · have hloop := jobLoop_ok synthFn (create_chunks text 240).length dec
        (create_chunks text 240) 1 [] hall
      rw [run_tts_job_ok_branch]
      simp only [hloop]
      have hsegs : ([] ++ ((create_chunks text 240).map (fun c => [dec c, silence35])).flatten)
          ≠ ([] : List (List ℚ)) := by
        rw [List.nil_append]
        cases hcs : create_chunks text 240 with
        | nil => exact absurd hcs hne
        | cons c rest => simp
      rw [if_neg hsegs]
      show (applyEvs initTask ([Ev.setStatus "processing", Ev.setProgress 5]
          ++ ((jobLoop synthFn (create_chunks text 240).length (create_chunks text 240) 1 []).1
            ++ [Ev.setStatus "completed", Ev.setProgress 100,
                Ev.setAudioUrl ("/output/audio/" ++ taskId ++ ".wav")]))).status = "completed"
      exact applyEvs_status_tail3 initTask _ _ _
    · intro e2
      rw [hres]
      simp

/-- Witness for C7: a 2-character chunk is skipped by the synthesizer and,
being the only chunk, yields the "No audio chunks generated" failure —
while `run_tts_job` on `"Hello world."` (one chunk of 12 trimmed
characters, under the threshold) completes. -/
theorem short_chunk_skip_synthesizer_only_witness :
    ((synthesize_chunks "v" (some "e") (fun _ => Except.ok [1]) ["A."]).1 = [] ∧
      (synthesize_chunks "v" (some "e") (fun _ => Except.ok [1]) ["A."]).2
        = Except.error "No audio chunks generated") ∧
    (applyEvs initTask (run_tts_job "t" "Hello world." (Except.ok ())
        (fun _ => Except.ok (Wav.mono [1], 24000))).events).status = "completed" := by
  have h := short_chunk_skip_synthesizer_only "v" "e" (by decide)
    (fun _ => Except.ok [1]) ["A."] "t" "Hello world."
    (fun _ => Except.ok (Wav.mono [1], 24000)) (fun _ => [1])
  exact ⟨h.1.2.2.1 (by decide),
    (h.2.2 (fun c _ => ⟨Wav.mono [1], 24000, rfl, rfl⟩) (by decide)).2.1⟩
